import Mathlib

/-!
# Verification of the link/target resolution engine of rstdoc (`dcx.py`)

Shallow embedding of the core of `rstdoc/dcx.py`: the link extractor
(`links`), the target extractor with its label heuristics (`linktargets`),
the inclusion walker (`genrstincluded`), the folder aggregator (`genfldrs`)
and the cross-reference emitter (`lnksandtags`).

Modelling conventions:
* A line of text is a `Line := List Char`.  Python `readlines` keeps the
  trailing newline on every line of a file that ends with a newline; the
  regex matchers below are stated on the bare line (without the `\n`) and
  are defined so that they agree with the Python regexes applied to the
  newline-terminated line.  Lines never contain an interior newline.
* Python `\w` and `\s` are modelled for ASCII text (the only text the
  repository uses in identifiers).
* The filesystem is an explicit parameter: a partial map from resolved
  names to line lists.  `os.path.normpath(os.path.join p f)` is an
  abstract `join` parameter of the walker.
* Python dicts threaded through the computation (`g_counters`) become
  association lists; Python sets used only for membership become lists
  queried with membership.
-/

namespace Dcx

/-- A line of text (without its trailing newline). -/
abbrev Line := List Char

/-- Convert a string literal to a `Line`. -/
def L (s : String) : Line := s.data

/-- Python `\w` for ASCII: letters, digits and underscore. -/
def isWordChar (c : Char) : Bool := c.isAlphanum || c = '_'

/-- Python `\s` for ASCII: space, tab, newline, carriage return,
form feed and vertical tab. -/
def isSpaceChar (c : Char) : Bool :=
  c = ' ' || c = '\t' || c = '\n' || c = '\x0d' || c = '\x0c' || c = '\x0b'

/-- The characters of Python `string.punctuation`, the character class of
`rextitle` in dcx.py line 101. -/
def isPunctChar (c : Char) : Bool :=
  c ∈ (L "!\"#$%&\x27()*+,-./:;<=>?@[\\]^_`\x7b|\x7d~")

/-- Python `str.strip()` from the left. -/
def wsTrimLeft (s : Line) : Line := s.dropWhile isSpaceChar

/-- Python `str.strip()` from the right. -/
def wsTrimRight (s : Line) : Line := ((s.reverse).dropWhile isSpaceChar).reverse

/-- Python `str.strip()`: strip whitespace from both ends. -/
def wsTrim (s : Line) : Line := wsTrimRight (wsTrimLeft s)

/-- The character set of the Python call `lns[i].strip(' ._:`\n')`
in dcx.py line 240. -/
def isTgtStripChar (c : Char) : Bool :=
  c = ' ' || c = '.' || c = '_' || c = ':' || c = '`' || c = '\n'

/-- Python `lns[i].strip(' ._:`\n')` (dcx.py line 240): strip the listed
characters from both ends. -/
def pstrip (s : Line) : Line :=
  (((s.dropWhile isTgtStripChar).reverse).dropWhile isTgtStripChar).reverse

/-!
## `links` — dcx.py lines 220-225

`re.findall(r'\|(\w+)\|', ln)`: non-overlapping occurrences of a
bar-delimited word, scanned left to right; on a match the closing bar is
consumed, on a failure the scan advances one character.
-/

/-- The scanning state of `re.findall(r'\|(\w+)\|', ·)`: `none` when no
match attempt is open, `some acc` when an opening bar has been read and
`acc` is the word run seen since.  One match attempt is open at a time
because a failed attempt can only resume after the failing character
(the skipped characters contain no bar). -/
def lnkgo : Option Line → Line → List Line
  | _, [] => []
  | none, c :: rest => if c = '|' then lnkgo (some []) rest else lnkgo none rest
  | some acc, c :: rest =>
    if isWordChar c then lnkgo (some (acc ++ [c])) rest
    else if c = '|' then
      if acc.isEmpty then lnkgo (some []) rest
      else acc :: lnkgo none rest
    else lnkgo none rest

/-- `re.findall(r'\|(\w+)\|', ·)` on one line: the non-overlapping
occurrences of a bar-delimited nonempty word, left to right; a match
consumes its closing bar. -/
def lnkfindall (s : Line) : List Line := lnkgo none s

/-- `links` (dcx.py lines 220-225): for every line, in order, each
bar-delimited identifier on it, left to right, tagged with the 0-based line
index. -/
def links (lns : List Line) : List (Nat × Line) :=
  lns.enum.flatMap (fun p => (lnkfindall p.2).map (fun g => (p.1, g)))

/-!
## The regex matchers of `linktargets` — dcx.py lines 101-104 and 236
-/

/-- `rextitle = re.compile(r'^([!"#$%&\'()*+,\-./:;<=>?@[\]^_`{|}~])\1+$')`
(dcx.py line 101): a line of two or more copies of one punctuation
character. -/
def rextitleMatch : Line → Bool
  | [] => false
  | c :: rest => isPunctChar c && !rest.isEmpty && rest.all (· = c)

/-- `rexitem = re.compile(r'^:?(\w[^:]*):\s.*$')` (dcx.py line 102), on the
newline-terminated line: after an optional leading colon, a word character
and then everything up to the first colon forms the group; the first colon
must be followed by a whitespace character (possibly the terminating
newline).  Returns the group. -/
def rexitemMatch (s : Line) : Option Line :=
  let s1 := match s with
    | ':' :: t => t
    | t => t
  match s1 with
  | [] => none
  | c :: rest =>
    if isWordChar c then
      match rest.dropWhile (· ≠ ':') with
      | ':' :: r =>
        match r with
        | [] => some (c :: rest.takeWhile (· ≠ ':'))
        | w :: _ =>
          if isSpaceChar w then some (c :: rest.takeWhile (· ≠ ':')) else none
      | _ => none
    else none

/-- `rexname = re.compile(r'^\s*:name:\s*(\w.*)*$')` (dcx.py line 103), on
the newline-terminated line.  `none`: the line does not match at all.
`some none`: the line matches with an empty `:name:` value (the Python
group is `None`).  `some (some v)`: the line matches and the value `v`
starts with a word character (trailing blanks are part of `v`, as in the
Python group). -/
def rexnameMatch (s : Line) : Option (Option Line) :=
  let s1 := s.dropWhile isSpaceChar
  if (L ":name:").isPrefixOf s1 then
    let rest := (s1.drop 6).dropWhile isSpaceChar
    match rest with
    | [] => some none
    | c :: _ => if isWordChar c then some (some rest) else none
  else none

/-- The body of the target regex `r'^\.\. _`?(\w[^:`]*)`?:\s*$'`
(dcx.py line 236) after the `.. _` marker and the optional opening
backtick, on the newline-terminated line: a word character, characters
other than colon and backtick, an optional backtick, a colon, then only
whitespace. -/
def rextgtCore : Line → Bool
  | [] => false
  | c :: t =>
    if isWordChar c then
      match t.dropWhile (fun x => x ≠ ':' && x ≠ '`') with
      | '`' :: ':' :: tail => tail.all isSpaceChar
      | ':' :: tail => tail.all isSpaceChar
      | _ => false
    else false

/-- The full target regex: the `.. _` prefix at column 0, an optional
backtick, then the body. -/
def rextgtMatch (s : Line) : Bool :=
  match s with
  | '.' :: '.' :: ' ' :: '_' :: '`' :: rest => rextgtCore rest
  | '.' :: '.' :: ' ' :: '_' :: rest => rextgtCore rest
  | _ => false

/-!
## `linktargets` — dcx.py lines 227-271
-/

/-- The per-document-group counter dictionary
`{".. figure":1,".. math":1,".. table":1,".. code":1}` (dcx.py line 234). -/
structure Counters where
  figure : Nat
  math : Nat
  table : Nat
  code : Nat
deriving Repr, DecidableEq

/-- The initial counter dictionary: every kind starts at 1. -/
def initCounters : Counters := ⟨1, 1, 1, 1⟩

/-- Key `".. figure"` as a line. -/
def keyFigure : Line := L ".. figure"
/-- Key `".. math"` as a line. -/
def keyMath : Line := L ".. math"
/-- Key `".. table"` as a line. -/
def keyTable : Line := L ".. table"
/-- Key `".. code"` as a line. -/
def keyCode : Line := L ".. code"

/-- `lnj1 in counters` (dcx.py line 262): the dictionary holds exactly the
four keys it was created with. -/
def isCounterKey (k : Line) : Bool :=
  k = keyFigure || k = keyMath || k = keyTable || k = keyCode

/-- `counters[lnj1]` for a key of the dictionary (0 for a non-key, which
the code never queries). -/
def getCounter (c : Counters) (k : Line) : Nat :=
  if k = keyFigure then c.figure
  else if k = keyMath then c.math
  else if k = keyTable then c.table
  else if k = keyCode then c.code
  else 0

/-- `counters[lnj1] += 1` (dcx.py line 264). -/
def bumpCounter (c : Counters) (k : Line) : Counters :=
  if k = keyFigure then { c with figure := c.figure + 1 }
  else if k = keyMath then { c with math := c.math + 1 }
  else if k = keyTable then { c with table := c.table + 1 }
  else if k = keyCode then { c with code := c.code + 1 }
  else c

/-- Python `str(n)` as a line. -/
def natLine (n : Nat) : Line := (toString n).data

/-- `lnj1[3].upper()+lnj1[4:]+docprefix+str(counters[lnj1])`
(dcx.py line 263) with `docprefix = ' '` (line 232): capitalize the first
letter after the `.. ` prefix and append the counter value. -/
def counterLabel (k : Line) (c : Counters) : Line :=
  ((k.getD 3 ' ').toUpper :: k.drop 4) ++ ' ' :: natLine (getCounter c k)

/-- Python `s.split('::')[0]`: the prefix before the first `::`. -/
def beforeColons : Line → Line
  | [] => []
  | ':' :: ':' :: _ => []
  | c :: rest => c :: beforeColons rest

/-- Python `str.replace(pat, repl)`: replace every non-overlapping
occurrence, left to right.  Implemented with a fuel argument equal to the
length of the string (each step consumes at least one character when the
pattern is nonempty, which it always is here). -/
def replaceAll (pat repl : Line) (s : Line) : Line := go s.length s
where
  go : Nat → Line → Line
  | 0, t => t
  | _ + 1, [] => []
  | n + 1, c :: rest =>
    if pat ≠ [] && pat.isPrefixOf (c :: rest) then
      repl ++ go n ((c :: rest).drop pat.length)
    else c :: go n rest

/-- `lns[j-1].split('::')[0].replace('list-table','table')
.replace('code-block','code')` (dcx.py line 261). -/
def normalizeDirective (prev : Line) : Line :=
  replaceAll (L "code-block") (L "code")
    (replaceAll (L "list-table") (L "table") (beforeColons prev))

/-- One step of the label lookahead loop body (dcx.py lines 246-270):
given the line `lnj` at position `j` and the line `prevLn` above it,
either stop with a label and updated counters, or continue scanning. -/
inductive Verdict where
  | stop (label : Line) (c : Counters)
  | next
deriving Repr, DecidableEq

/-- The body of `for j in range(i+2,i+8)` (dcx.py lines 246-270), after the
bound check: try `rextitle`, then `rexitem`, then `rexname`; on an empty
`:name:` whose directive line above is one of the four counted kinds,
produce the counter label and advance the counter; on an empty `:name:`
under any other line, continue scanning (the code resets `lnkname` to the
target id and does not break). -/
def lineVerdict (prevLn lnj : Line) (c : Counters) : Verdict :=
  if rextitleMatch lnj then .stop (wsTrim prevLn) c
  else
    match rexitemMatch lnj with
    | some v => .stop v c
    | none =>
      match rexnameMatch lnj with
      | none => .next
      | some val =>
        let lnj1 := normalizeDirective prevLn
        match val with
        | none =>
          if isCounterKey lnj1 then .stop (counterLabel lnj1 c) (bumpCounter c lnj1)
          else .next
        | some v => .stop (wsTrim v) c

/-- The lookahead loop `for j in range(i+2,i+8)` of `linktargets`
(dcx.py lines 242-270), reading lines with default `dflt` (the default is
never used: the loop breaks before reading an index past the end).
`fuel` counts the remaining iterations, `j` is the current index and
`name` the current `lnkname` (reset to the target id whenever the loop
continues without breaking). -/
def scanGo (dflt : Line) (lns : List Line) (tgt : Line) :
    Nat → Nat → Line → Counters → Line × Counters
  | 0, _, name, c => (name, c)
  | fuel + 1, j, name, c =>
    if j > lns.length - 1 then (name, c)
    else
      match lineVerdict (lns.getD (j - 1) dflt) (lns.getD j dflt) c with
      | .stop label c1 => (label, c1)
      | .next => scanGo dflt lns tgt fuel (j + 1) tgt c

/-- Label derivation for the target at line `i` (dcx.py lines 240-270):
scan lines `i+2 .. i+7`, starting with label = target id. -/
def scanLabel (lns : List Line) (tgt : Line) (c : Counters) (i : Nat) :
    Line × Counters :=
  scanGo [] lns tgt 6 (i + 2) tgt c

/-- The global `g_counters` dictionary (dcx.py line 227), keyed by document
group number, as an association list. -/
abbrev GCounters := List (Nat × Counters)

/-- Dictionary update: replace the value at `n` if present, else add it. -/
def gset (g : GCounters) (n : Nat) (c : Counters) : GCounters :=
  match g with
  | [] => [(n, c)]
  | (m, c0) :: rest => if m = n then (m, c) :: rest else (m, c0) :: gset rest n c

/-- The fold over the target indices of a document: for each anchor index,
strip the anchor line to the target id, derive the label and thread the
counters. -/
def processIdxs (lns : List Line) (idxs : List Nat) (c : Counters) :
    List (Nat × Line × Line) × Counters :=
  match idxs with
  | [] => ([], c)
  | i :: rest =>
    let tgt := pstrip (lns.getD i [])
    let r := scanLabel lns tgt c i
    let t := processIdxs lns rest r.2
    ((i, tgt, r.1) :: t.1, t.2)

/-- `itgts = rindices(r'^\.\. _`?(\w[^:`]*)`?:\s*$', lns)` (dcx.py
line 236): the indices of the anchor lines. -/
def anchorIdxs (lns : List Line) : List Nat :=
  (List.range lns.length).filter (fun i => rextgtMatch (lns.getD i []))

/-- `linktargets(lns, docnumber)` (dcx.py lines 228-271): ensure the group
`docnumber` has a counter set in `g_counters` (line 233), locate the anchor
lines (line 236), and derive id and label for each, threading the shared
counters; returns the targets and the updated global counter dictionary. -/
def linktargets (lns : List Line) (docnumber : Nat) (g : GCounters) :
    List (Nat × Line × Line) × GCounters :=
  let g1 := if (g.lookup docnumber).isSome then g else gset g docnumber initCounters
  let c0 := (g1.lookup docnumber).getD initCounters
  let r := processIdxs lns (anchorIdxs lns) c0
  (r.1, gset g1 docnumber r.2)

/-!
## `genrstincluded` — dcx.py lines 151-194

The filesystem is a parameter `fs : Line → Option (List Line)` from names
(as the code queries them, relative to the fixed working directory) to
line lists; `os.path.exists nm` is `(fs nm).isSome` and `read_lines nm`
is `fs nm`.  `os.path.normpath (os.path.join p f)` is the abstract
parameter `join`.  The generator's yields become the returned list; the
returned Bool records whether the call raised an exception that its own
body did not catch (the only raise is `read_lines` on a missing file,
dcx.py line 164, which sits outside every `try`).  Python recursion depth
is modelled by `fuel` (the Python code would recurse without bound on a
cyclic include).
-/

/-- The resolution loop of dcx.py lines 154-162: the first root whose join
with `fn` exists wins, then the same with the template suffix `.stpl`
appended, and the bare name if nothing matched. -/
def resolveIncl (fs : Line → Option (List Line)) (join : Line → Line → Line)
    (paths : List Line) (fn : Line) : Line :=
  match paths with
  | [] => fn
  | p :: rest =>
    let nfn := join p fn
    if (fs nfn).isSome then nfn
    else if (fs (nfn ++ L ".stpl")).isSome then nfn ++ L ".stpl"
    else resolveIncl fs join rest fn

/-- `reximg = re.compile(r'image:: ((?:\.|/|\\|\w).*)')` (dcx.py line 104)
via `search`: the leftmost occurrence of `image:: ` followed by a dot,
slash, backslash or word character; the group runs to the end of the
line. -/
def imgMatch : Line → Option Line
  | [] => none
  | s@(_ :: rest) =>
    if (L "image:: ").isPrefixOf s then
      match s.drop 8 with
      | c :: r =>
        if c = '.' || c = '/' || c = '\\' || isWordChar c then some (c :: r)
        else imgMatch rest
      | [] => imgMatch rest
    else imgMatch rest

/-- Python `str.split(sep)` for a nonempty separator: split at every
non-overlapping occurrence, left to right.  Fuel equals the length of the
string (each step consumes at least one character). -/
def splitOnL (sep : Line) (s : Line) : List Line := go s.length s []
where
  go : Nat → Line → Line → List Line
  | 0, t, acc => [acc.reverse ++ t]
  | _ + 1, [], acc => [acc.reverse]
  | n + 1, c :: rest, acc =>
    if sep ≠ [] && sep.isPrefixOf (c :: rest) then
      acc.reverse :: go n ((c :: rest).drop sep.length) []
    else go n rest (c :: acc)

/-- The body of the `for e in lns` loop of dcx.py lines 167-194.  `sub` is
the recursive call for referenced files (always invoked with the default
`withimg=False`, as in the source), `toctree` the loop flag set by a
toctree marker.  The flag is never reset: the variable `toctreedone` that
was meant to reset it is re-initialized to False at the top of each
iteration and every path that sets it True ends in `continue`, so the
reset branch is dead code.  A toctree entry is recursed into only when it
ends in `.rest` and exists (line 172); the existence guard also makes the
read of that entry succeed, so its exception flag is statically False and
is dropped here.  An include line recurses inside `try`, so a raise from
the child is caught after the yields the child already produced (line
190); the handler then attempts the image match when `withimg` is set. -/
def linesWalk (sub : Line → List Line × Bool) (fs : Line → Option (List Line))
    (withimg : Bool) : List Line → Bool → List Line
  | [], _ => []
  | e :: rest, toctree =>
    if toctree && (L " ").isPrefixOf e then
      let fl := wsTrim e
      (if (L ".rest").isSuffixOf fl && (fs fl).isSome then (sub fl).1 else [])
        ++ linesWalk sub fs withimg rest toctree
    else if (L ".. toctree::").isPrefixOf e then
      linesWalk sub fs withimg rest true
    else if (L ".. ").isPrefixOf e then
      (match splitOnL (L "include:: ") (e.drop 3) with
       | [f, t] =>
         if f = [] && t ≠ [] && !((L "_links_").isPrefixOf t) then
           let r := sub (wsTrim t)
           r.1 ++ (if r.2 && withimg then (imgMatch e).toList else [])
         else []
       | _ => if withimg then (imgMatch e).toList else [])
        ++ linesWalk sub fs withimg rest toctree
    else
      linesWalk sub fs withimg rest toctree

/-- The recursive core of `genrstincluded` for the recursive calls (which
all use `withimg=False`): defined by primitive recursion on the fuel so
that it evaluates inside the kernel. -/
def genrstinclAux (fs : Line → Option (List Line)) (join : Line → Line → Line)
    (paths : List Line) (fuel : Nat) : Line → List Line × Bool :=
  Nat.rec (motive := fun _ => Line → List Line × Bool)
    (fun fn => ([fn], false))
    (fun _ sub fn =>
      match fs (resolveIncl fs join paths fn) with
      | none => ([fn], true)
      | some lns => (fn :: linesWalk sub fs false lns false, false))
    fuel

/-- `genrstincluded(fn, paths, withimg)` (dcx.py lines 151-194): yield `fn`
itself, then walk its lines for toctree entries, includes and (when
`withimg`) images.  The Bool is True when the call raised to its consumer
(its own `read_lines` failed). -/
def genrstincluded (fs : Line → Option (List Line)) (join : Line → Line → Line)
    (fuel : Nat) (fn : Line) (paths : List Line) (withimg : Bool) :
    List Line × Bool :=
  match fuel with
  | 0 => ([fn], false)
  | fuel0 + 1 =>
    match fs (resolveIncl fs join paths fn) with
    | none => ([fn], true)
    | some lns =>
      (fn :: linesWalk (genrstinclAux fs join paths fuel0) fs withimg lns false,
        false)

/-!
## `genfldrs` — dcx.py lines 430-460

The directory walk `genfldrincluded('.')` (lines 196-218, built on
`os.walk`) supplies the `groups` argument: one list of paths per primary
`.rest` document, the primary document first.  `read_lines` is the `fs`
parameter.  Python sets used only for membership (`fldr_alltgts`) become
lists queried with `∈`; the two dicts keyed by folder become association
lists in insertion order.
-/

/-- `is_rest` (dcx.py line 149). -/
def is_rest (x : Line) : Bool :=
  (L ".rest").isSuffixOf x || (L ".rest.stpl").isSuffixOf x

/-- `os.path.split` for normalized relative paths with `/` as separator:
split at the last slash; no slash gives an empty head. -/
def splitPath (p : Line) : Line × Line :=
  let r := p.reverse
  (((r.dropWhile (· ≠ '/')).drop 1).reverse, (r.takeWhile (· ≠ '/')).reverse)

/-- `os.path.splitext(p)[0]`: drop the extension after the last dot,
unless everything before that dot is dots (the hidden-file rule). -/
def splitextRoot (p : Line) : Line :=
  let r := p.reverse
  if (r.takeWhile (· ≠ '.')).length = r.length then p
  else
    let base := (r.dropWhile (· ≠ '.')).drop 1
    if base.isEmpty || base.all (· = '.') then p else base.reverse

/-- One document of a folder scope: the entry
`(restn, doc, len(lns), lnks, tgts)` appended at dcx.py line 452. -/
structure DocEntry where
  restn : Line
  doc : Line
  lenlns : Nat
  lnks : List (Nat × Line)
  tgts : List (Nat × Line × Line)
deriving Repr, DecidableEq

/-- The folder scope `(lnktgts, allfiles, alltgts)` yielded at dcx.py
line 459. -/
structure Scope where
  lnktgts : List DocEntry
  allfiles : List Line
  alltgts : List Line
deriving Repr, DecidableEq

/-- Append one value to the list at a key of an association list, adding
the key at the end when absent (dict insertion order). -/
def mapAppend (m : List (Line × List α)) (k : Line) (v : List α) :
    List (Line × List α) :=
  match m with
  | [] => [(k, v)]
  | (k0, vs) :: rest =>
    if k0 = k then (k0, vs ++ v) :: rest else (k0, vs) :: mapAppend rest k v

/-- Lookup with default `[]`. -/
def mapGet (m : List (Line × List α)) (k : Line) : List α :=
  match m with
  | [] => []
  | (k0, vs) :: rest => if k0 = k then vs else mapGet rest k

/-- The inner `for doc in dcs` loop of dcx.py lines 445-455: read each
file (a missing file is skipped via the bare `except`), extract links and
targets, and accumulate the folder maps and the target-id inventory. -/
def docsLoop (fs : Line → Option (List Line)) (fldr restn : Line)
    (docnumber : Nat) :
    List Line → List (Line × List DocEntry) → List (Line × List Line) →
    GCounters →
    List (Line × List DocEntry) × List (Line × List Line) × GCounters
  | [], mL, mT, g => (mL, mT, g)
  | doc :: rest, mL, mT, g =>
    match fs doc with
    | none => docsLoop fs fldr restn docnumber rest mL mT g
    | some lns =>
      let lnks := links lns
      let r := linktargets lns docnumber g
      let mL1 := mapAppend mL fldr [⟨restn, doc, lns.length, lnks, r.1⟩]
      let mT1 := mapAppend mT fldr (r.1.map (fun t => t.2.1))
      docsLoop fs fldr restn docnumber rest mL1 mT1 r.2

/-- `genfldrs` (dcx.py lines 430-460) over the walked `groups`: per group,
locate the primary `.rest` file, derive folder and base name, count the
distinct base names (the document-group number passed to `linktargets`),
process every file of the group, and finally yield each folder with its
scope, in insertion order.  (On a group without a `.rest` member the
Python code would raise `IndexError`; such groups do not occur, the walk
always puts the primary file first.) -/
def genfldrs (groups : List (List Line)) (fs : Line → Option (List Line))
    (g : GCounters) : List (Line × Scope) × GCounters :=
  go groups [] [] [] [] g
where
  go : List (List Line) → List (Line × List DocEntry) →
      List (Line × List Line) → List (Line × List Line) → List Line →
      GCounters → List (Line × Scope) × GCounters
  | [], mL, mF, mT, _, g =>
    (mL.map (fun p => (p.1, ⟨p.2, mapGet mF p.1, mapGet mT p.1⟩)), g)
  | dcs :: rest, mL, mF, mT, dcns, g =>
    let restf := ((dcs.filter is_rest).headD [])
    let fldr := (splitPath restf).1
    let fln := (splitPath restf).2
    let mF1 := mapAppend mF fldr dcs
    let restn0 := splitextRoot fln
    let restn := if is_rest restn0 then splitextRoot restn0 else restn0
    let dcns1 := if restn ∈ dcns then dcns else dcns ++ [restn]
    let r := docsLoop fs fldr restn dcns1.length dcs mL mT g
    go rest r.1 mF1 r.2.1 dcns1 r.2.2

/-!
## `lnksandtags` — dcx.py lines 462-525

The source appends to three parallel per-format lists (`_tgtsdoc`) inside
one loop; the model records the loop as a list of events and renders one
line list per format from it.  A `flush` event is the comment line built
by `add_linksto` (appended identically to all three lists), a `hdr` event
the per-file comment (also identical), and a `tgtline` event the
substitution directive, rendered per format.
-/

/-- The classification of one link reference inside `add_linksto`
(dcx.py lines 486-501): a known id verbatim, an unknown id with a leading
`-` marker. -/
def classify (alltgts : List Line) (lnk : Line) : Line :=
  if lnk ∈ alltgts then lnk else '-' :: lnk

/-- `add_linksto(i, ojlnk)` (dcx.py lines 483-507) without the output
side effect: from the pending state (the not-yet-consumed links and the
stashed look-ahead link), classify every link strictly before the stashed
position bound and at position at most `i` from the iterator, stash the
first iterator link past `i`, and return the classified batch with the new
state. -/
def addLinksto (alltgts : List Line) (i : Nat)
    (st : List (Nat × Line) × Option (Nat × Line)) :
    List Line × (List (Nat × Line) × Option (Nat × Line)) :=
  match st.2 with
  | some (j, l) =>
    if j < i then
      let r := consume st.1
      (classify alltgts l :: r.1, (r.2.1, r.2.2))
    else ([], st)
  | none =>
    let r := consume st.1
    (r.1, (r.2.1, r.2.2))
where
  consume : List (Nat × Line) → List Line × List (Nat × Line) × Option (Nat × Line)
  | [] => ([], [], none)
  | (j, l) :: rest =>
    if j > i then ([], rest, some (j, l))
    else
      let r := consume rest
      (classify alltgts l :: r.1, r.2)

/-- One append to the per-format lists of `lnksandtags`. -/
inductive Emt where
  | hdr (fin : Line)
  | flush (ls : List Line)
  | tgtline (tgt lnkname restn : Line)
deriving Repr, DecidableEq

/-- `'\n.. .. {0}\n\n'` / `'.. .. ' + ','.join(linksto) + '\n\n'` /
`'.. |{0}| replace:: :ref:`{1}<{0}>`\n'` (dcx.py lines 481, 504, 513). -/
def renderSphinx : Emt → Line
  | .hdr fin => '\n' :: (L ".. .. " ++ fin ++ L "\n\n")
  | .flush ls => L ".. .. " ++ List.intercalate (L ",") ls ++ L "\n\n"
  | .tgtline tgt name _ =>
    L ".. |" ++ tgt ++ L "| replace:: :ref:`" ++ name ++ L "<" ++ tgt ++ L ">`\n"

/-- The docx rendering (dcx.py line 515). -/
def renderDocx : Emt → Line
  | .hdr fin => '\n' :: (L ".. .. " ++ fin ++ L "\n\n")
  | .flush ls => L ".. .. " ++ List.intercalate (L ",") ls ++ L "\n\n"
  | .tgtline tgt name restn =>
    L ".. |" ++ tgt ++ L "| replace:: `" ++ name ++ L " <" ++ restn ++
      L ".docx#" ++ tgt ++ L ">`_\n"

/-- The pdf rendering (dcx.py line 517). -/
def renderPdf : Emt → Line
  | .hdr fin => '\n' :: (L ".. .. " ++ fin ++ L "\n\n")
  | .flush ls => L ".. .. " ++ List.intercalate (L ",") ls ++ L "\n\n"
  | .tgtline tgt name restn =>
    L ".. |" ++ tgt ++ L "| replace:: `" ++ name ++ L " <" ++ restn ++
      L ".pdf#" ++ tgt ++ L ">`_\n"

/-- `"../" * up`. -/
def dotsUp (up : Nat) : Line := (List.replicate up (L "../")).flatten

/-- One `.tags` row (dcx.py line 519):
`'{0}\t{1}\t/^\.\. _`\?{0}`\?:/;"\t\tline:{2}'.format(tgt, "../"*up+fin, i+1)`.
Note the two tab characters between `;"` and `line:`. -/
def tagRow (tgt : Line) (up : Nat) (fin : Line) (i : Nat) : Line :=
  tgt ++ '\t' :: (dotsUp up ++ fin) ++ '\t' :: L "/^\\.\\. _`\\?" ++ tgt ++
    L "`\\?:/;\"\t\tline:" ++ natLine (i + 1)

/-- The `for i,tgt,lnkname in tgts` loop of dcx.py lines 509-520 for one
document, including the final `add_linksto(lenlns, ojlnk)` call: produces
the event list and the `.tags` rows of the document. -/
def docGo (alltgts : List Line) (restn fin : Line) (up : Nat) (lenlns : Nat) :
    List (Nat × Line × Line) → List (Nat × Line) × Option (Nat × Line) →
    List Emt × List Line
  | [], st =>
    let r := addLinksto alltgts lenlns st
    ((if r.1.isEmpty then [] else [Emt.flush r.1]), [])
  | (i, tgt, lnkname) :: rest, st =>
    let r := addLinksto alltgts i st
    let t := docGo alltgts restn fin up lenlns rest r.2
    ((if r.1.isEmpty then [] else [Emt.flush r.1]) ++
       Emt.tgtline tgt lnkname restn :: t.1,
     tagRow tgt up fin i :: t.2)

/-- Processing of one document inside `lnksandtags` (dcx.py lines
471-520): the per-file comment, then the interleaved flushes and
substitution directives, plus the `.tags` rows. -/
def processDoc (alltgts : List Line) (up : Nat) (d : DocEntry) :
    List Emt × List Line :=
  let fin := d.doc.map (fun c => if c = '\\' then '/' else c)
  let r := docGo alltgts d.restn fin up d.lenlns d.tgts (d.lnks, none)
  (Emt.hdr fin :: r.1, r.2)

/-- The four artifacts written by `lnksandtags` (dcx.py lines 521-525):
the contents of `_links_sphinx.rst`, `_links_docx.rst`, `_links_pdf.rst`
and `.tags`. -/
structure Outputs where
  sphinx : Line
  docx : Line
  pdf : Line
  tags : Line
deriving Repr, DecidableEq

/-- `lnksandtags(fldr, lnktgts, allfiles, alltgts)` (dcx.py lines
463-525): `up` counts the folder components (`os.sep` is `/` here), the
per-format lists are joined with `'\n'` into the `_links_<fmt>.rst`
contents and the rows into the `.tags` contents.  `allfiles` is accepted
and unused, as in the source. -/
def lnksandtags (fldr : Line) (lnktgts : List DocEntry)
    (_allfiles alltgts : List Line) : Outputs :=
  let up := if wsTrim fldr ≠ [] then (splitOnL (L "/") fldr).length else 0
  let evts := lnktgts.flatMap (fun d => (processDoc alltgts up d).1)
  let tags := lnktgts.flatMap (fun d => (processDoc alltgts up d).2)
  { sphinx := List.intercalate (L "\n") (evts.map renderSphinx)
    docx := List.intercalate (L "\n") (evts.map renderDocx)
    pdf := List.intercalate (L "\n") (evts.map renderPdf)
    tags := List.intercalate (L "\n") tags }

/-- The generation loop of `main` (dcx.py lines 1070-1078) restricted to
link/tag emission: run `genfldrs` once and emit every folder.  The global
counter dictionary is threaded in and out: a second call inside the same
process starts from the dictionary the first call left behind. -/
def runDcx (groups : List (List Line)) (fs : Line → Option (List Line))
    (g : GCounters) : List (Line × Outputs) × GCounters :=
  let r := genfldrs groups fs g
  (r.1.map (fun p => (p.1, lnksandtags p.1 p.2.lnktgts p.2.allfiles p.2.alltgts)),
    r.2)

/-!
## Specification-side definitions

These follow the wording of the specification claims, to be compared with
the definitions translated from the source above.
-/

/-- The window of the label lookahead as the claims describe it: the six
line indices below the anchor at `i`, skipping the line directly below. -/
def windowIdxs (i : Nat) : List Nat := [i + 2, i + 3, i + 4, i + 5, i + 6, i + 7]

/-- Claim C2, taken literally: scanning the window in order, a line stops
the scan when it is an underline-style section title **two lines below
the anchor** (the title text at `i+2`, its underline at `i+3`), or a
definition-list style line, or a `:name:` field line **of one of the
counted structural blocks**; any other line is skipped; no stop means the
label is the raw anchor id. -/
def derive_label_claim (lns : List Line) (tgt : Line) (c0 : Counters)
    (i : Nat) : Line × Counters :=
  go (windowIdxs i) c0
where
  go : List Nat → Counters → Line × Counters
  | [], c => (tgt, c)
  | j :: rest, c =>
    if j ≥ lns.length then (tgt, c)
    else
      let lnj := lns.getD j []
      let prevLn := lns.getD (j - 1) []
      if j = i + 3 && rextitleMatch lnj then (wsTrim prevLn, c)
      else
        match rexitemMatch lnj with
        | some v => (v, c)
        | none =>
          match rexnameMatch lnj with
          | some val =>
            let k := normalizeDirective prevLn
            if isCounterKey k then
              match val with
              | none => (counterLabel k c, bumpCounter c k)
              | some v => (wsTrim v, c)
            else go rest c
          | none => go rest c

/-- The amended form of claim C2: scanning the window in order, the scan
stops at the first line that is an underline-style title line (anywhere in
the window; the label is the stripped line directly above it), or a
definition-list style line (the label is the text before its first colon),
or a `:name:` field line carrying an explicit value (the label is the
stripped value, for any enclosing block), or an empty `:name:` field line
directly below a column-0 directive of one of the counted kinds (the label
is the counter label, and the counter advances); an empty `:name:` line
under anything else is skipped like a non-matching line; no stop within
the window means the label is the raw anchor id. -/
def derive_label_amended (lns : List Line) (tgt : Line) (c0 : Counters)
    (i : Nat) : Line × Counters :=
  go (windowIdxs i) c0
where
  go : List Nat → Counters → Line × Counters
  | [], c => (tgt, c)
  | j :: rest, c =>
    if j ≥ lns.length then (tgt, c)
    else
      match lineVerdict (lns.getD (j - 1) []) (lns.getD j []) c with
      | .stop label c1 => (label, c1)
      | .next => go rest c

/-- The `.tags` row in the exact shape claim C8 states:
`id<TAB>relative-path<TAB>search-pattern;"<TAB>line:<n>` — a single tab
between `;"` and `line:`. -/
def tagRowClaim (tgt : Line) (up : Nat) (fin : Line) (i : Nat) : Line :=
  tgt ++ '\t' :: (dotsUp up ++ fin) ++ '\t' :: L "/^\\.\\. _`\\?" ++ tgt ++
    L "`\\?:/;\"\tline:" ++ natLine (i + 1)

/-- The six structural directives of claim C3. -/
inductive Drct where
  | fig
  | mth
  | tbl
  | ltbl
  | cde
  | cblk
deriving Repr, DecidableEq

/-- A representative directive line of each kind, at column 0. -/
def directiveLine : Drct → Line
  | .fig => L ".. figure:: f.png"
  | .mth => L ".. math::"
  | .tbl => L ".. table::"
  | .ltbl => L ".. list-table::"
  | .cde => L ".. code:: cpp"
  | .cblk => L ".. code-block:: cpp"

/-- The capitalized kind of each directive as the claim states it:
`list-table` normalizes to `Table` and `code-block` to `Code`. -/
def kindCap : Drct → Line
  | .fig => L "Figure"
  | .mth => L "Math"
  | .tbl => L "Table"
  | .ltbl => L "Table"
  | .cde => L "Code"
  | .cblk => L "Code"

/-- One anchor followed by a directive with an empty `:name:` field. -/
def mkBlock (d : Drct) : List Line :=
  [L ".. _`x`:", L "", directiveLine d, L "   :name:", L ""]

/-- A document interleaving such blocks in an arbitrary order. -/
def mkBlocks (ds : List Drct) : List Line := ds.flatMap mkBlock

/-- Claim C3's expectation, written with one independent counter per kind:
the n-th block of a kind is labeled `<Kind> n`, independent of the
interleaving.  `pos` is the line index of the block's anchor; the blocks
are five lines long. -/
def expectedTgts : Nat → Nat → Nat → Nat → Nat → List Drct →
    List (Nat × Line × Line)
  | _, _, _, _, _, [] => []
  | pos, nf, nm, nt, nc, d :: ds =>
    let n := match d with
      | .fig => nf
      | .mth => nm
      | .tbl | .ltbl => nt
      | .cde | .cblk => nc
    (pos, L "x", kindCap d ++ ' ' :: natLine n) ::
      expectedTgts (pos + 5)
        (if d = .fig then nf + 1 else nf)
        (if d = .mth then nm + 1 else nm)
        (if d = .tbl || d = .ltbl then nt + 1 else nt)
        (if d = .cde || d = .cblk then nc + 1 else nc) ds

/-!
## Auxiliary definitions used by the verification
-/

/-- The window indices as `fuel` consecutive indices from `j`. -/
def windowList : Nat → Nat → List Nat
  | 0, _ => []
  | fuel + 1, j => j :: windowList fuel (j + 1)

/-- A one-document tree whose document holds a single anchor over a
figure with an empty `:name:` field. -/
def fsOneFigure : Line → Option (List Line) := fun s =>
  if s = L "d.rest" then
    some [L ".. _`x`:", L "", L ".. figure:: i.png", L "   :name:"]
  else none

/-- A root document whose toctree lists a file absent from the tree. -/
def fsToctree : Line → Option (List Line) := fun s =>
  if s = L "root.rest" then some [L ".. toctree::", L "   a.rest"] else none

/-- Name resolution for a scan rooted at the current directory:
`os.path.normpath (os.path.join "." f) = f`. -/
def joinCwd : Line → Line → Line := fun _ f => f

/-- The links still to be classified: the stashed look-ahead link first,
then the unread rest of the iterator. -/
def pendingList (st : List (Nat × Line) × Option (Nat × Line)) :
    List (Nat × Line) :=
  st.2.toList ++ st.1

/-- The classified ids carried by the flush events of an event list, in
order. -/
def flushParts : List Emt → List Line
  | [] => []
  | .flush ls :: rest => ls ++ flushParts rest
  | _ :: rest => flushParts rest

/-- A flush comment line starts with `.. .. ` (headers start with a
newline and substitution lines with `.. |`). -/
def isFlushLine (l : Line) : Bool := (L ".. .. ").isPrefixOf l

/-- The counter value a directive kind reads. -/
def kindN : Drct → Counters → Nat
  | .fig, c => c.figure
  | .mth, c => c.math
  | .tbl, c | .ltbl, c => c.table
  | .cde, c | .cblk, c => c.code

/-- The counter advance a directive kind performs. -/
def kindBump : Drct → Counters → Counters
  | .fig, c => { c with figure := c.figure + 1 }
  | .mth, c => { c with math := c.math + 1 }
  | .tbl, c | .ltbl, c => { c with table := c.table + 1 }
  | .cde, c | .cblk, c => { c with code := c.code + 1 }

/-- The counter set a group reads from the global dictionary: the stored
value, or the initial counters when the key is absent (dcx.py lines
232-234 initialize an absent key to exactly these). -/
def readg (g : GCounters) (n : Nat) : Counters :=
  (g.lookup n).getD initCounters

/-- The key-insertion step of `linktargets` (dcx.py lines 232-234) as a
named function. -/
def ensureg (g : GCounters) (n : Nat) : GCounters :=
  if (g.lookup n).isSome then g else gset g n initCounters

/-- A one-document tree whose document holds an anchor target and a link
but no auto-numbered block: processing it stores only initial counters. -/
def fsPlainDoc : Line → Option (List Line) := fun s =>
  if s = L "d.rest" then
    some [L ".. _x:", L "", L "see |x| here"]
  else none

/-- The folder a group is filed under (the `fldr` binding of
`genfldrs`). -/
def gFldr (dcs : List Line) : Line :=
  (splitPath ((dcs.filter is_rest).headD [])).1

/-- The base document name of a group (the `restn` binding of
`genfldrs`). -/
def gRestn (dcs : List Line) : Line :=
  let r0 := splitextRoot (splitPath ((dcs.filter is_rest).headD [])).2
  if is_rest r0 then splitextRoot r0 else r0

/-- The distinct-base-name accumulator after one group of `genfldrs`. -/
def gDcns (dcs dcns : List Line) : List Line :=
  if gRestn dcs ∈ dcns then dcns else dcns ++ [gRestn dcs]

/-- The document-group number passed to `linktargets` for one group. -/
def gDn (dcs dcns : List Line) : Nat := (gDcns dcs dcns).length

end Dcx

-- sanity examples (matcher behaviour checked against the Python re module)
example : Dcx.lnkfindall (Dcx.L "|a|b|") = [Dcx.L "a"] := by decide
example : Dcx.lnkfindall (Dcx.L "|a||b|") = [Dcx.L "a", Dcx.L "b"] := by decide
example : Dcx.lnkfindall (Dcx.L "|a|b|c|") = [Dcx.L "a", Dcx.L "c"] := by decide
example : Dcx.lnkfindall (Dcx.L "x|ab| and |cd|y") = [Dcx.L "ab", Dcx.L "cd"] := by decide
example : Dcx.lnkfindall (Dcx.L "|ab cd|e|") = [Dcx.L "e"] := by decide
example : Dcx.rextitleMatch (Dcx.L "====") = true := by decide
example : Dcx.rextitleMatch (Dcx.L "=") = false := by decide
example : Dcx.rextitleMatch (Dcx.L "=-=") = false := by decide
example : Dcx.rexitemMatch (Dcx.L ":abc:") = some (Dcx.L "abc") := by decide
example : Dcx.rexitemMatch (Dcx.L ":idname: x") = some (Dcx.L "idname") := by decide
example : Dcx.rexitemMatch (Dcx.L "  :name: x") = none := by decide
example : Dcx.rexitemMatch (Dcx.L "OtherName: Keep") = some (Dcx.L "OtherName") := by decide
example : Dcx.rexitemMatch (Dcx.L "x : y") = some (Dcx.L "x ") := by decide
example : Dcx.rexnameMatch (Dcx.L "   :name:") = some none := by decide
example : Dcx.rexnameMatch (Dcx.L "   :name: foo") = some (some (Dcx.L "foo")) := by decide
example : Dcx.rexnameMatch (Dcx.L "   :name: foo  ") = some (some (Dcx.L "foo  ")) := by decide
example : Dcx.rexnameMatch (Dcx.L "   :name:   ") = some none := by decide
example : Dcx.rexnameMatch (Dcx.L "   :name: *x*") = none := by decide
example : Dcx.rexnameMatch (Dcx.L ":name:foo") = some (some (Dcx.L "foo")) := by decide
example : Dcx.rextgtMatch (Dcx.L ".. _`id`:") = true := by decide
example : Dcx.rextgtMatch (Dcx.L ".. _id:") = true := by decide
example : Dcx.rextgtMatch (Dcx.L "  .. _`id`:") = false := by decide
example : Dcx.rextgtMatch (Dcx.L ".. _`id`: x") = false := by decide
example : Dcx.rextgtMatch (Dcx.L ".. _`my id.`:") = true := by decide
example : Dcx.rextgtMatch (Dcx.L ".. _`id:") = true := by decide
example : Dcx.rextgtMatch (Dcx.L ".. _id`:") = true := by decide
example : Dcx.pstrip (Dcx.L ".. _`my id.`:") = Dcx.L "my id" := by decide

-- label derivation examples (mirroring the labels the repository documents)
example :
    (Dcx.linktargets
      [Dcx.L ".. _`id`:", Dcx.L "",
       Dcx.L ":idname: **key words** and some more text.",
       Dcx.L "And some more text."] 0 []).1
    = [(0, Dcx.L "id", Dcx.L "idname")] := by decide
example :
    (Dcx.linktargets
      [Dcx.L ".. _`sy7`:", Dcx.L "",
       Dcx.L "A Requirement Group", Dcx.L "-------------------",
       Dcx.L "ss"] 0 []).1
    = [(0, Dcx.L "sy7", Dcx.L "A Requirement Group")] := by decide
example :
    (Dcx.linktargets
      [Dcx.L ".. _`dz3`:", Dcx.L "",
       Dcx.L ".. figure:: _images/exampletikz.png", Dcx.L "  :name:"] 0 []).1
    = [(0, Dcx.L "dz3", Dcx.L "Figure 1")] := by decide
example :
    (Dcx.linktargets
      [Dcx.L ".. _`dta`:", Dcx.L "",
       Dcx.L "|dta|: Table legend", Dcx.L "",
       Dcx.L ".. list-table::", Dcx.L "  :name:"] 0 []).1
    = [(0, Dcx.L "dta", Dcx.L "Table 1")] := by decide
example :
    (Dcx.linktargets
      [Dcx.L ".. _`dyi`:", Dcx.L "",
       Dcx.L "|dyi|: Listing showing struct.", Dcx.L "",
       Dcx.L ".. code-block:: cpp", Dcx.L "   :name:"] 0 []).1
    = [(0, Dcx.L "dyi", Dcx.L "Code 1")] := by decide
example :
    (Dcx.linktargets
      [Dcx.L ".. _`d9x`:", Dcx.L "",
       Dcx.L ".. math::", Dcx.L "   :name:", Dcx.L ""] 0 []).1
    = [(0, Dcx.L "d9x", Dcx.L "Math 1")] := by decide
-- two unlabeled figures in one group: Figure 1 then Figure 2
example :
    (Dcx.linktargets
      [Dcx.L ".. _`a`:", Dcx.L "", Dcx.L ".. figure:: x.png", Dcx.L "  :name:",
       Dcx.L "",
       Dcx.L ".. _`b`:", Dcx.L "", Dcx.L ".. figure:: y.png", Dcx.L "  :name:"]
      0 []).1
    = [(0, Dcx.L "a", Dcx.L "Figure 1"), (5, Dcx.L "b", Dcx.L "Figure 2")] := by
  decide
-- explicit :name: value is used verbatim
example :
    (Dcx.linktargets
      [Dcx.L ".. _`z`:", Dcx.L "",
       Dcx.L ".. figure:: x.png", Dcx.L "  :name: myname"] 0 []).1
    = [(0, Dcx.L "z", Dcx.L "myname")] := by decide
-- no following content: label falls back to the id
example :
    (Dcx.linktargets [Dcx.L "text", Dcx.L ".. _`solo`:"] 0 []).1
    = [(1, Dcx.L "solo", Dcx.L "solo")] := by decide

/-!
## Shared lemmas
-/

namespace Dcx

/-- A word character is not a whitespace character. -/
theorem word_not_space {c : Char} (h : isWordChar c = true) :
    isSpaceChar c = false := by
  by_contra hs
  rw [Bool.not_eq_false] at hs
  simp only [isSpaceChar, Bool.or_eq_true, decide_eq_true_eq] at hs
  rcases hs with ((((h1 | h1) | h1) | h1) | h1) | h1 <;> subst h1 <;>
    revert h <;> decide

/-- Dropping a prefix whose members all satisfy the predicate. -/
theorem dropWhile_append_of_all {p : Char → Bool} {l1 : Line} (l2 : Line)
    (h : l1.all p) : (l1 ++ l2).dropWhile p = l2.dropWhile p := by
  rw [List.dropWhile_append]
  simp [List.dropWhile_eq_nil_iff.mpr (fun a ha => List.all_eq_true.mp h a ha)]

/-- Right-trimming a line that ends in a colon followed by whitespace
leaves the colon last. -/
theorem wsTrimRight_colon_ws {x ws : Line} (h : ws.all isSpaceChar) :
    wsTrimRight (x ++ ':' :: ws) = x ++ [':'] := by
  unfold wsTrimRight
  have h1 : (x ++ ':' :: ws).reverse = ws.reverse ++ ':' :: x.reverse := by
    simp
  rw [h1, dropWhile_append_of_all _ (by simpa using h)]
  have h2 : List.dropWhile isSpaceChar (':' :: x.reverse) = ':' :: x.reverse := by
    rw [List.dropWhile_cons, show isSpaceChar ':' = false from rfl]
    simp
  rw [h2]
  simp

/-- Every target produced by `processIdxs` carries an index of the index
list and the stripped text of its line. -/
theorem processIdxs_mem_idx {lns : List Line} {idxs : List Nat} {c : Counters}
    {i : Nat} {t n : Line} (h : (i, t, n) ∈ (processIdxs lns idxs c).1) :
    i ∈ idxs ∧ t = pstrip (lns.getD i []) := by
  induction idxs generalizing c with
  | nil => simp [processIdxs] at h
  | cons j rest ih =>
    simp only [processIdxs, List.mem_cons, Prod.mk.injEq] at h
    rcases h with ⟨hi, ht, _⟩ | h
    · refine ⟨?_, ?_⟩
      · rw [hi]; exact List.mem_cons_self _ _
      · rw [ht, hi]
    · obtain ⟨h1, h2⟩ := ih h
      exact ⟨List.mem_cons_of_mem j h1, h2⟩

end Dcx

namespace Dcx

/-- A successful body match decomposes the body as text, a colon and
trailing whitespace. -/
theorem rextgtCore_shape {r : Line} (h : rextgtCore r = true) :
    ∃ pre tail, tail.all isSpaceChar = true ∧ r = pre ++ ':' :: tail := by
  unfold rextgtCore at h
  split at h
  case h_1 => simp at h
  case h_2 c t =>
    rw [if_pos] at h
    case hc =>
      by_contra hw
      rw [if_neg hw] at h
      exact absurd h (by simp)
    have hts := (List.takeWhile_append_dropWhile
      (fun x => x ≠ ':' && x ≠ '`') t).symm
    split at h
    case h_1 tail heq =>
      rw [heq] at hts
      refine ⟨c :: t.takeWhile (fun x => x ≠ ':' && x ≠ '`') ++ ['`'], tail, h, ?_⟩
      conv_lhs => rw [hts]
      simp
    case h_2 tail heq =>
      rw [heq] at hts
      refine ⟨c :: t.takeWhile (fun x => x ≠ ':' && x ≠ '`'), tail, h, ?_⟩
      conv_lhs => rw [hts]
      simp
    case h_3 => simp at h

/-- A successful anchor match starts with the `.. _` marker and, after
right-stripping, ends with a colon. -/
theorem rextgt_shape {s : Line} (h : rextgtMatch s = true) :
    (L ".. _").isPrefixOf s = true ∧ (wsTrimRight s).getLast? = some ':' := by
  unfold rextgtMatch at h
  split at h
  case h_3 => simp at h
  case h_1 rest =>
    obtain ⟨pre, tail, hsp, hr⟩ := rextgtCore_shape h
    subst hr
    refine ⟨by simp [L, List.isPrefixOf], ?_⟩
    have heq : '.' :: '.' :: ' ' :: '_' :: '`' :: (pre ++ ':' :: tail)
        = ('.' :: '.' :: ' ' :: '_' :: '`' :: pre) ++ ':' :: tail := by simp
    rw [heq, wsTrimRight_colon_ws hsp]
    exact List.getLast?_concat _
  case h_2 rest =>
    obtain ⟨pre, tail, hsp, hr⟩ := rextgtCore_shape h
    subst hr
    refine ⟨by simp [L, List.isPrefixOf], ?_⟩
    have heq : '.' :: '.' :: ' ' :: '_' :: (pre ++ ':' :: tail)
        = ('.' :: '.' :: ' ' :: '_' :: pre) ++ ':' :: tail := by simp
    rw [heq, wsTrimRight_colon_ws hsp]
    exact List.getLast?_concat _

/-- C10: `linktargets` recognizes a line as an anchor declaration only when
the marker `.. _` begins at column 0 with nothing before it and only
trailing whitespace after the closing colon: every produced target sits on
a line that starts with `.. _` and whose right-stripped text ends in the
colon; in particular a line with leading whitespace (or anything else)
before the marker yields no target. -/
theorem C10_anchor_column0 :
    ∀ (lns : List Line) (dn : Nat) (g : GCounters) (i : Nat) (t n : Line),
      (i, t, n) ∈ (linktargets lns dn g).1 →
      (L ".. _").isPrefixOf (lns.getD i []) = true ∧
      (wsTrimRight (lns.getD i [])).getLast? = some ':' := by
  intro lns dn g i t n h
  simp only [linktargets] at h
  obtain ⟨hidx, _⟩ := processIdxs_mem_idx h
  have hP := (List.mem_filter.mp hidx).2
  exact rextgt_shape hP

/-- Witness for C10 at a concrete document. -/
theorem C10_anchor_column0_witness :
    (L ".. _").isPrefixOf (([L ".. _`id`:"] : List Line).getD 0 []) = true ∧
    (wsTrimRight (([L ".. _`id`:"] : List Line).getD 0 [])).getLast? = some ':' :=
  C10_anchor_column0 [L ".. _`id`:"] 0 [] 0 (L "id") (L "id") (by decide)

end Dcx

namespace Dcx

/-- The lookahead loop never reads past the end: its result does not
depend on the out-of-range default. -/
theorem scanGo_default_irrelevant (d1 d2 : Line) (lns : List Line)
    (tgt : Line) (fuel : Nat) :
    ∀ (j : Nat) (name : Line) (c : Counters), 2 ≤ j →
      scanGo d1 lns tgt fuel j name c = scanGo d2 lns tgt fuel j name c := by
  induction fuel with
  | zero => intro j name c _; rfl
  | succ fuel ih =>
    intro j name c hj
    simp only [scanGo]
    by_cases hb : j > lns.length - 1
    · rw [if_pos hb, if_pos hb]
    · rw [if_neg hb, if_neg hb]
      have hlen : j < lns.length := by omega
      have hlen1 : j - 1 < lns.length := by omega
      rw [List.getD_eq_getElem lns d1 hlen, List.getD_eq_getElem lns d2 hlen,
        List.getD_eq_getElem lns d1 hlen1, List.getD_eq_getElem lns d2 hlen1]
      split
      · rfl
      · exact ih (j + 1) tgt c (by omega)

/-- A target on the last line of the document: the scan breaks before the
first read and the label falls back to the id. -/
theorem scanLabel_last (pre : List Line) (s : Line) (t : Line) (c : Counters) :
    scanLabel (pre ++ [s]) t c pre.length = (t, c) := by
  simp only [scanLabel, scanGo]
  rw [if_pos (by simp)]

/-- An index of the list whose scan is counter-independent and returns the
id contributes its entry to the result of `processIdxs`. -/
theorem processIdxs_mem_of_const {lns : List Line} {i : Nat}
    (hsc : ∀ c', scanLabel lns (pstrip (lns.getD i [])) c' i
      = (pstrip (lns.getD i []), c')) :
    ∀ (idxs : List Nat) (c : Counters), i ∈ idxs →
      (i, pstrip (lns.getD i []), pstrip (lns.getD i []))
        ∈ (processIdxs lns idxs c).1 := by
  intro idxs
  induction idxs with
  | nil => intro c h; simp at h
  | cons j rest ih =>
    intro c h
    simp only [processIdxs]
    rcases List.mem_cons.mp h with hj | hmem
    · subst hj
      rw [hsc c]
      exact List.mem_cons_self _ _
    · exact List.mem_cons_of_mem _ (ih _ hmem)

/-- C9: the label lookahead never reads a line index past the end of the
document (the loop breaks first, so the result is independent of the
out-of-range default), and an anchor with no following content within the
window still yields a target whose label equals the anchor id. -/
theorem C9_window_safe :
    (∀ (d1 d2 : Line) (lns : List Line) (tgt : Line) (fuel j : Nat)
        (name : Line) (c : Counters), 2 ≤ j →
        scanGo d1 lns tgt fuel j name c = scanGo d2 lns tgt fuel j name c) ∧
    (∀ (pre : List Line) (s : Line) (dn : Nat) (g : GCounters),
        rextgtMatch s = true →
        (pre.length, pstrip s, pstrip s) ∈ (linktargets (pre ++ [s]) dn g).1) := by
  constructor
  · intro d1 d2 lns tgt fuel j name c hj
    exact scanGo_default_irrelevant d1 d2 lns tgt fuel j name c hj
  · intro pre s dn g hanch
    have hgd : (pre ++ [s]).getD pre.length [] = s := by
      rw [List.getD_append_right _ _ _ _ (le_refl _)]
      simp
    have hmemf : pre.length ∈ (List.range (pre ++ [s]).length).filter
        (fun i => rextgtMatch ((pre ++ [s]).getD i [])) := by
      rw [List.mem_filter]
      refine ⟨by simp, ?_⟩
      rw [hgd]
      exact hanch
    have hsc : ∀ c', scanLabel (pre ++ [s])
        (pstrip ((pre ++ [s]).getD pre.length [])) c' pre.length
        = (pstrip ((pre ++ [s]).getD pre.length []), c') := by
      intro c'
      exact scanLabel_last pre s _ c'
    have h := processIdxs_mem_of_const hsc _
      ((if ((g.lookup dn).isSome) then g else gset g dn initCounters).lookup dn
        |>.getD initCounters) hmemf
    simp only [linktargets]
    rw [hgd] at h
    exact h

/-- Witness for C9 at concrete inputs. -/
theorem C9_window_safe_witness :
    scanGo (L "A") [] (L "t") 6 2 (L "t") initCounters
      = scanGo (L "B") [] (L "t") 6 2 (L "t") initCounters ∧
    (0, L "solo", L "solo") ∈ (linktargets [L ".. _`solo`:"] 0 []).1 := by
  refine ⟨C9_window_safe.1 (L "A") (L "B") [] (L "t") 6 2 (L "t") initCounters
    (by decide), ?_⟩
  have h := C9_window_safe.2 [] (L ".. _`solo`:") 0 [] (by decide)
  rw [show pstrip (L ".. _`solo`:") = L "solo" from by decide] at h
  simpa using h

end Dcx

namespace Dcx


/-- The code's lookahead loop equals the first-match scan over the
explicit window list. -/
theorem scanGo_eq_goWindow (lns : List Line) (tgt : Line) :
    ∀ (fuel j : Nat) (c : Counters), 2 ≤ j →
      scanGo [] lns tgt fuel j tgt c
        = derive_label_amended.go lns tgt (windowList fuel j) c := by
  intro fuel
  induction fuel with
  | zero => intro j c _; rfl
  | succ fuel ih =>
    intro j c hj
    simp only [scanGo, windowList, derive_label_amended.go]
    by_cases hge : j ≥ lns.length
    · rw [if_pos (by omega), if_pos hge]
    · rw [if_neg (by omega), if_neg hge]
      split
      · rfl
      · exact ih (j + 1) c (by omega)

/-- C2, amended: the label of a target is derived by a first-match scan of
the six-line window below the anchor — an underline-style title line
anywhere in the window stops the scan with the stripped line directly
above it, a definition-list style line stops it with the text before its
first colon, a `:name:` field line with an explicit value stops it with
the stripped value, an empty `:name:` field line stops it with the
post-incremented counter label exactly when the line directly above is a
column-0 directive of one of the four counted kinds (otherwise it is
skipped), and a window with no match leaves the label equal to the raw
anchor id. -/
theorem C2_window_first_match :
    ∀ (lns : List Line) (tgt : Line) (c : Counters) (i : Nat),
      scanLabel lns tgt c i = derive_label_amended lns tgt c i := by
  intro lns tgt c i
  have h := scanGo_eq_goWindow lns tgt 6 (i + 2) c (by omega)
  have hw : windowList 6 (i + 2) = windowIdxs i := rfl
  rw [hw] at h
  exact h

/-- C2, counterexample to the literal claim: with the underline four lines
below the anchor (so the title is not two lines below), the code still
finds the title, while the claimed derivation falls back to the anchor
id. -/
theorem C2_counterexample :
    (linktargets [L ".. _`x`:", L "", L "", L "Title", L "====="] 0 []).1
      = [(0, L "x", L "Title")] ∧
    derive_label_claim [L ".. _`x`:", L "", L "", L "Title", L "====="]
      (L "x") initCounters 0 = (L "x", initCounters) := by decide

end Dcx

namespace Dcx

/-- One lookahead step that continues. -/
theorem scanGo_step_next {lns : List Line} {j : Nat} {c : Counters}
    {dflt tgt name : Line} {fuel : Nat}
    (hb : ¬ j > lns.length - 1)
    (hv : lineVerdict (lns.getD (j - 1) dflt) (lns.getD j dflt) c
      = Verdict.next) :
    scanGo dflt lns tgt (fuel + 1) j name c
      = scanGo dflt lns tgt fuel (j + 1) tgt c := by
  simp only [scanGo]
  rw [if_neg hb, hv]

/-- One lookahead step that stops. -/
theorem scanGo_step_stop {lns : List Line} {j : Nat} {c c1 : Counters}
    {dflt tgt name lbl : Line} {fuel : Nat}
    (hb : ¬ j > lns.length - 1)
    (hv : lineVerdict (lns.getD (j - 1) dflt) (lns.getD j dflt) c
      = Verdict.stop lbl c1) :
    scanGo dflt lns tgt (fuel + 1) j name c = (lbl, c1) := by
  simp only [scanGo]
  rw [if_neg hb, hv]

/-- The rexname matcher on an indented `:name:` field with an explicit
word-initial value returns that value. -/
theorem rexname_explicit {v : Line} {c0 : Char} {v1 : Line}
    (hv : v = c0 :: v1) (hw : isWordChar c0 = true) :
    rexnameMatch (L "   :name: " ++ v) = some (some v) := by
  have h1 : (L "   :name: " ++ v).dropWhile isSpaceChar = L ":name: " ++ v := rfl
  simp only [rexnameMatch, h1]
  rw [if_pos (by exact rfl)]
  have h2 : ((L ":name: " ++ v).drop 6).dropWhile isSpaceChar
      = v.dropWhile isSpaceChar := rfl
  rw [h2, hv, List.dropWhile_cons, word_not_space hw]
  simp [hw]

/-- An indented `:name:` line is not a title underline. -/
theorem rextitle_nameline (v : Line) :
    rextitleMatch (L "   :name: " ++ v) = false := rfl

/-- An indented `:name:` line is not a definition-list item. -/
theorem rexitem_nameline (v : Line) :
    rexitemMatch (L "   :name: " ++ v) = none := rfl

/-- An indented `:name:` line is not an anchor. -/
theorem rextgt_nameline (v : Line) :
    rextgtMatch (L "   :name: " ++ v) = false := rfl

/-- Explicit-value scan under an abstract directive line: when the
directive line matches no pattern and is no anchor, the scan stops at the
`:name:` line with the stripped explicit value and untouched counters. -/
theorem linktargets_explicit_over (dir : Line) (v : Line)
    (hv2 : lineVerdict (L "") dir initCounters = Verdict.next)
    (hva : rextgtMatch dir = false)
    (hv3 : lineVerdict dir (L "   :name: " ++ v) initCounters
      = Verdict.stop (wsTrim v) initCounters)
    (ht : wsTrim v = v) :
    linktargets [L ".. _`x`:", L "", dir, L "   :name: " ++ v] 1 []
      = ([(0, L "x", v)], [(1, initCounters)]) := by
  have hidx : anchorIdxs [L ".. _`x`:", L "", dir, L "   :name: " ++ v]
      = [0] := by
    have h2 : rextgtMatch
        (([L ".. _`x`:", L "", dir, L "   :name: " ++ v]).getD 2 []) = false :=
      hva
    unfold anchorIdxs
    rw [show ([L ".. _`x`:", L "", dir, L "   :name: " ++ v]).length = 4
      from rfl]
    rw [show List.range 4 = [0, 1, 2, 3] from rfl]
    simp only [List.filter, h2]
    rfl
  have hb2 : ¬ (2 : Nat)
      > ([L ".. _`x`:", L "", dir, L "   :name: " ++ v]).length - 1 := by
    rw [show ([L ".. _`x`:", L "", dir, L "   :name: " ++ v]).length = 4
      from rfl]
    omega
  have hb3 : ¬ (3 : Nat)
      > ([L ".. _`x`:", L "", dir, L "   :name: " ++ v]).length - 1 := by
    rw [show ([L ".. _`x`:", L "", dir, L "   :name: " ++ v]).length = 4
      from rfl]
    omega
  have hscan : scanLabel [L ".. _`x`:", L "", dir, L "   :name: " ++ v]
      (L "x") initCounters 0 = (v, initCounters) := by
    show scanGo [] [L ".. _`x`:", L "", dir, L "   :name: " ++ v]
      (L "x") 6 2 (L "x") initCounters = _
    rw [scanGo_step_next hb2 hv2, scanGo_step_stop hb3 hv3, ht]
  have hpr : processIdxs [L ".. _`x`:", L "", dir, L "   :name: " ++ v] [0]
      initCounters = ([(0, L "x", v)], initCounters) := by
    simp only [processIdxs]
    rw [show pstrip (([L ".. _`x`:", L "", dir,
      L "   :name: " ++ v]).getD 0 []) = L "x" from rfl, hscan]
  simp only [linktargets, hidx]
  show ((processIdxs [L ".. _`x`:", L "", dir, L "   :name: " ++ v] [0]
      initCounters).1,
    gset [(1, initCounters)] 1
      (processIdxs [L ".. _`x`:", L "", dir, L "   :name: " ++ v] [0]
        initCounters).2) = _
  rw [hpr]
  rfl

/-- C4: for a target whose following structural directive (any of the six
kinds, at column 0) carries a `:name:` field with an explicit value,
`linktargets` returns exactly that value as the label — and the counter
dictionary is returned untouched at its initial state, so the label is
never counter-based. -/
theorem C4_explicit_name :
    ∀ (d : Drct) (v : Line) (c0 : Char) (v1 : Line), v = c0 :: v1 →
      isWordChar c0 = true → wsTrim v = v →
      linktargets [L ".. _`x`:", L "", directiveLine d,
          L "   :name: " ++ v] 1 []
        = ([(0, L "x", v)], [(1, initCounters)]) := by
  intro d v c0 v1 hv hw ht
  refine linktargets_explicit_over (directiveLine d) v ?_ ?_ ?_ ht
  · cases d <;> rfl
  · cases d <;> rfl
  · unfold lineVerdict
    rw [rextitle_nameline, rexitem_nameline, rexname_explicit hv hw]
    simp

/-- Witness for C4 with a figure directive and the explicit value `foo`. -/
theorem C4_explicit_name_witness :
    linktargets [L ".. _`x`:", L "", directiveLine Drct.fig,
        L "   :name: " ++ L "foo"] 1 []
      = ([(0, L "x", L "foo")], [(1, initCounters)]) :=
  C4_explicit_name Drct.fig (L "foo") 'f' (L "oo") rfl (by decide) (by decide)

end Dcx

namespace Dcx

/-- Elements of the enumerated link list are bounded below by the start
index. -/
theorem linksAux_mem_ge (lns : List Line) :
    ∀ (n : Nat) p, p ∈ (List.enumFrom n lns).flatMap
      (fun q => (lnkfindall q.2).map (fun g => (q.1, g))) → n ≤ p.1 := by
  induction lns with
  | nil => intro n p h; simp at h
  | cons a l ih =>
    intro n p h
    simp only [List.enumFrom, List.flatMap_cons, List.mem_append] at h
    rcases h with h | h
    · obtain ⟨g, _, hg⟩ := List.mem_map.mp h
      exact le_of_eq (by rw [← hg])
    · exact Nat.le_of_succ_le (ih (n + 1) p h)

/-- The tagged copies of one line are pairwise equal in index. -/
theorem pairwise_const_fst (n : Nat) (xs : List Line) :
    List.Pairwise (fun p q => p.1 ≤ q.1)
      (xs.map (fun g => ((n : Nat), g))) := by
  induction xs with
  | nil => exact List.Pairwise.nil
  | cons x xs ih =>
    simp only [List.map_cons]
    refine List.Pairwise.cons ?_ ih
    intro q hq
    obtain ⟨g, _, hg⟩ := List.mem_map.mp hq
    exact le_of_eq (by rw [← hg])

/-- The enumerated link list is sorted by line index. -/
theorem linksAux_pairwise (lns : List Line) :
    ∀ (n : Nat), List.Pairwise (fun p q => p.1 ≤ q.1)
      ((List.enumFrom n lns).flatMap
        (fun q => (lnkfindall q.2).map (fun g => (q.1, g)))) := by
  induction lns with
  | nil => intro n; simp
  | cons a l ih =>
    intro n
    simp only [List.enumFrom, List.flatMap_cons]
    rw [List.pairwise_append]
    refine ⟨pairwise_const_fst n (lnkfindall a), ih (n + 1), ?_⟩
    intro p hp q hq
    obtain ⟨g, _, hg⟩ := List.mem_map.mp hp
    have h2 := linksAux_mem_ge l (n + 1) q hq
    have h1 : p.1 = n := by rw [← hg]
    omega

/-- A bar-free prefix does not affect the scan. -/
theorem lnkgo_none_append {a : Line} (r : Line) (h : a.all (· ≠ '|') = true) :
    lnkgo none (a ++ r) = lnkgo none r := by
  induction a with
  | nil => rfl
  | cons c a ih =>
    simp only [List.all_cons, Bool.and_eq_true] at h
    simp only [List.cons_append, lnkgo]
    rw [if_neg (by simpa using h.1)]
    exact ih h.2

/-- A word run extends the open match attempt. -/
theorem lnkgo_word {w : Line} (r : Line) (hw : w.all isWordChar = true) :
    ∀ acc, lnkgo (some acc) (w ++ r) = lnkgo (some (acc ++ w)) r := by
  induction w with
  | nil => intro acc; simp
  | cons c w ih =>
    intro acc
    simp only [List.all_cons, Bool.and_eq_true] at hw
    simp only [List.cons_append, lnkgo]
    rw [if_pos hw.1, show w.append r = w ++ r from rfl, ih hw.2 (acc ++ [c])]
    simp

end Dcx

namespace Dcx

/-- C5: `links` yields one pair per bar-delimited marker: the pairs are in
nondecreasing line order (left to right within a line by construction of
the scan); every well-formed occurrence `a|w|b` with a bar-free prefix is
yielded, with the scan resuming after the closing bar; and the total count
of pairs equals the sum over the lines of the per-line marker counts. -/
theorem C5_links_total_ordered :
    (∀ (lns : List Line),
        List.Pairwise (fun p q => p.1 ≤ q.1) (links lns)) ∧
    (∀ (a w b : Line), a.all (· ≠ '|') = true → w ≠ [] →
        w.all isWordChar = true →
        lnkfindall (a ++ '|' :: (w ++ '|' :: b)) = w :: lnkfindall b) ∧
    (∀ (lns : List Line), (links lns).length
        = (lns.map (fun l => (lnkfindall l).length)).sum) := by
  refine ⟨?_, ?_, ?_⟩
  · intro lns
    exact linksAux_pairwise lns 0
  · intro a w b ha hw0 hw
    unfold lnkfindall
    rw [lnkgo_none_append _ ha]
    simp only [lnkgo, if_true]
    rw [lnkgo_word _ hw []]
    simp only [List.nil_append, lnkgo]
    rw [if_neg (by decide)]
    simp only [if_true]
    rw [if_neg (by simpa [List.isEmpty_iff] using hw0)]
  · intro lns
    unfold links
    rw [List.length_flatMap]
    conv_rhs => rw [← List.enum_map_snd lns]
    rw [List.map_map]
    show ((List.enum lns).map
      (fun q => ((lnkfindall q.2).map (fun g => (q.1, g))).length)).sum
      = ((List.enum lns).map
        ((fun l => (lnkfindall l).length) ∘ Prod.snd)).sum
    congr 1
    refine List.map_congr_left ?_
    intro q _
    simp

end Dcx

namespace Dcx

/-- Witness for C5 at a concrete line. -/
theorem C5_links_total_ordered_witness :
    lnkfindall (L "x " ++ '|' :: (L "ab" ++ '|' :: L " y|cd|"))
      = L "ab" :: lnkfindall (L " y|cd|") :=
  C5_links_total_ordered.2.1 (L "x ") (L "ab") (L " y|cd|")
    (by decide) (by decide) (by decide)

end Dcx

namespace Dcx


/-- C1, counterexample: running `genfldrs` + `lnksandtags` twice in the
same process over this unchanged tree does not reproduce the outputs —
the process-global counter dictionary survives the first run, so the
second run labels the figure `Figure 2` in every `_links_*.rst` file
instead of `Figure 1`. -/
theorem C1_counterexample :
    (runDcx [[L "d.rest"]] fsOneFigure []).1
      ≠ (runDcx [[L "d.rest"]] fsOneFigure
          ((runDcx [[L "d.rest"]] fsOneFigure []).2)).1 := by decide

/-- Looking a key up after `gset`: the set key reads the new value, any
other key is untouched. -/
theorem lookup_gset (g : GCounters) (n m : Nat) (c : Counters) :
    (gset g n c).lookup m = if m = n then some c else g.lookup m := by
  induction g with
  | nil =>
    by_cases h : m = n
    · subst h
      simp [gset, List.lookup]
    · have hb : (m == n) = false := beq_eq_false_iff_ne.mpr h
      simp [gset, List.lookup, hb, h]
  | cons p rest ih =>
    obtain ⟨k, c0⟩ := p
    by_cases hkn : k = n
    · subst hkn
      by_cases hmk : m = k
      · subst hmk
        simp [gset, List.lookup]
      · have hb : (m == k) = false := beq_eq_false_iff_ne.mpr hmk
        simp [gset, List.lookup, hb, hmk]
    · by_cases hmk : m = k
      · subst hmk
        simp [gset, hkn, List.lookup]
      · have hb : (m == k) = false := beq_eq_false_iff_ne.mpr hmk
        simp [gset, hkn, List.lookup, hb, ih]

/-- What a group reads after `gset`. -/
theorem readg_gset (g : GCounters) (n m : Nat) (c : Counters) :
    readg (gset g n c) m = if m = n then c else readg g m := by
  unfold readg
  rw [lookup_gset]
  by_cases h : m = n <;> simp [h]

/-- The key-insertion step of `linktargets` never changes what any group
reads: an absent key reads the initial counters both before and after it
is inserted with exactly that value. -/
theorem readg_ensure (g : GCounters) (n m : Nat) :
    readg (ensureg g n) m = readg g m := by
  unfold ensureg
  cases h : List.lookup n g with
  | some c => simp
  | none =>
    rw [if_neg (by simp), readg_gset]
    by_cases hmn : m = n
    · subst hmn
      simp [readg, h]
    · rw [if_neg hmn]

/-- `linktargets` depends on the global dictionary only through what each
group reads: equal reads give equal targets and equal reads afterwards. -/
theorem linktargets_congr (lns : List Line) (n : Nat) (ga gb : GCounters)
    (hr : ∀ m, readg ga m = readg gb m) :
    (linktargets lns n ga).1 = (linktargets lns n gb).1 ∧
      ∀ m, readg (linktargets lns n ga).2 m
        = readg (linktargets lns n gb).2 m := by
  have hga : linktargets lns n ga
      = ((processIdxs lns (anchorIdxs lns) (readg (ensureg ga n) n)).1,
        gset (ensureg ga n) n
          (processIdxs lns (anchorIdxs lns) (readg (ensureg ga n) n)).2) := rfl
  have hgb : linktargets lns n gb
      = ((processIdxs lns (anchorIdxs lns) (readg (ensureg gb n) n)).1,
        gset (ensureg gb n) n
          (processIdxs lns (anchorIdxs lns) (readg (ensureg gb n) n)).2) := rfl
  have hc : readg (ensureg ga n) n = readg (ensureg gb n) n := by
    rw [readg_ensure, readg_ensure, hr n]
  rw [hga, hgb, hc]
  refine ⟨rfl, ?_⟩
  intro m
  rw [readg_gset, readg_gset]
  by_cases hmn : m = n
  · rw [if_pos hmn, if_pos hmn]
  · rw [if_neg hmn, if_neg hmn, readg_ensure, readg_ensure, hr m]

/-- The per-document loop depends on the global dictionary only through
what each group reads. -/
theorem docsLoop_congr (fs : Line → Option (List Line)) (fldr restn : Line)
    (dn : Nat) :
    ∀ (docs : List Line) (mL : List (Line × List DocEntry))
      (mT : List (Line × List Line)) (ga gb : GCounters),
      (∀ m, readg ga m = readg gb m) →
      (docsLoop fs fldr restn dn docs mL mT ga).1
          = (docsLoop fs fldr restn dn docs mL mT gb).1 ∧
        (docsLoop fs fldr restn dn docs mL mT ga).2.1
          = (docsLoop fs fldr restn dn docs mL mT gb).2.1 ∧
        ∀ m, readg (docsLoop fs fldr restn dn docs mL mT ga).2.2 m
          = readg (docsLoop fs fldr restn dn docs mL mT gb).2.2 m := by
  intro docs
  induction docs with
  | nil =>
    intro mL mT ga gb hr
    exact ⟨rfl, rfl, hr⟩
  | cons doc rest ih =>
    intro mL mT ga gb hr
    cases hfd : fs doc with
    | none =>
      simp only [docsLoop, hfd]
      exact ih mL mT ga gb hr
    | some lns =>
      have hlt := linktargets_congr lns dn ga gb hr
      simp only [docsLoop, hfd]
      rw [hlt.1]
      exact ih _ _ _ _ hlt.2

/-- One step of the group loop of `genfldrs`, with the per-group bindings
written through their named forms. -/
theorem genfldrsGo_step (fs : Line → Option (List Line))
    (dcs : List Line) (rest : List (List Line))
    (mL : List (Line × List DocEntry)) (mF mT : List (Line × List Line))
    (dcns : List Line) (g : GCounters) :
    genfldrs.go fs (dcs :: rest) mL mF mT dcns g
      = genfldrs.go fs rest
          (docsLoop fs (gFldr dcs) (gRestn dcs) (gDn dcs dcns)
            dcs mL mT g).1
          (mapAppend mF (gFldr dcs) dcs)
          (docsLoop fs (gFldr dcs) (gRestn dcs) (gDn dcs dcns)
            dcs mL mT g).2.1
          (gDcns dcs dcns)
          (docsLoop fs (gFldr dcs) (gRestn dcs) (gDn dcs dcns)
            dcs mL mT g).2.2 := rfl

/-- The group loop of `genfldrs` depends on the global dictionary only
through what each group reads. -/
theorem genfldrsGo_congr (fs : Line → Option (List Line)) :
    ∀ (groups : List (List Line)) (mL : List (Line × List DocEntry))
      (mF mT : List (Line × List Line)) (dcns : List Line)
      (ga gb : GCounters),
      (∀ m, readg ga m = readg gb m) →
      (genfldrs.go fs groups mL mF mT dcns ga).1
          = (genfldrs.go fs groups mL mF mT dcns gb).1 ∧
        ∀ m, readg (genfldrs.go fs groups mL mF mT dcns ga).2 m
          = readg (genfldrs.go fs groups mL mF mT dcns gb).2 m := by
  intro groups
  induction groups with
  | nil =>
    intro mL mF mT dcns ga gb hr
    exact ⟨rfl, hr⟩
  | cons dcs rest ih =>
    intro mL mF mT dcns ga gb hr
    have hd := docsLoop_congr fs (gFldr dcs) (gRestn dcs) (gDn dcs dcns)
      dcs mL mT ga gb hr
    rw [genfldrsGo_step fs dcs rest mL mF mT dcns ga,
      genfldrsGo_step fs dcs rest mL mF mT dcns gb, hd.1, hd.2.1]
    exact ih _ _ _ _ _ _ hd.2.2

/-- The whole run depends on the global dictionary only through what each
group reads: equal reads give byte-identical outputs for every folder. -/
theorem runDcx_congr (groups : List (List Line))
    (fs : Line → Option (List Line)) (ga gb : GCounters)
    (hr : ∀ m, readg ga m = readg gb m) :
    (runDcx groups fs ga).1 = (runDcx groups fs gb).1 := by
  have hg := genfldrsGo_congr fs groups [] [] [] [] ga gb hr
  simp only [runDcx, genfldrs]
  rw [hg.1]

/-- A dictionary whose stored counter sets are all initial reads the
initial counters for every group. -/
theorem readg_allInit {g : GCounters}
    (h : ∀ p ∈ g, p.2 = initCounters) (m : Nat) :
    readg g m = initCounters := by
  induction g with
  | nil => rfl
  | cons p rest ih =>
    obtain ⟨k, c⟩ := p
    have hc : c = initCounters := h (k, c) (List.mem_cons_self _ _)
    by_cases hmk : m = k
    · subst hmk
      simp [readg, List.lookup, hc]
    · have hrest := ih (fun q hq => h q (List.mem_cons_of_mem _ hq))
      have hb : (m == k) = false := beq_eq_false_iff_ne.mpr hmk
      simpa [readg, List.lookup, hb] using hrest

/-- C1, amended: running twice over an unchanged tree from a fresh process
emits byte-identical outputs whenever the first run leaves every counter
set stored in the global dictionary at its initial value (the run may
still have added group keys, which carry the initial counters and change
nothing); a tree with an auto-numbered block violates the condition and
reruns differently. -/
theorem C1_idempotent_when_counters_initial :
    ∀ (groups : List (List Line)) (fs : Line → Option (List Line)),
      (∀ p ∈ (runDcx groups fs []).2, p.2 = initCounters) →
      (runDcx groups fs ((runDcx groups fs []).2)).1
        = (runDcx groups fs []).1 := by
  intro groups fs h
  exact runDcx_congr groups fs _ [] (fun m => by rw [readg_allInit h m]; rfl)

/-- Witness for the amended C1 on a one-document tree with an anchor
target and a link: the first run stores only initial counters, and the
second run reproduces the outputs byte for byte. -/
theorem C1_idempotent_witness :
    (∀ p ∈ (runDcx [[L "d.rest"]] fsPlainDoc []).2, p.2 = initCounters) ∧
      (runDcx [[L "d.rest"]] fsPlainDoc
          ((runDcx [[L "d.rest"]] fsPlainDoc []).2)).1
        = (runDcx [[L "d.rest"]] fsPlainDoc []).1 :=
  ⟨by decide,
    C1_idempotent_when_counters_initial [[L "d.rest"]] fsPlainDoc (by decide)⟩

end Dcx

namespace Dcx



/-- C7, counterexample: the toctree of `root.rest` references `a.rest`,
which does not exist, yet the traversal does not yield `a.rest` at all —
it is skipped silently, not yielded-but-not-recursed as claimed. -/
theorem C7_counterexample :
    fsToctree (L "root.rest") = some [L ".. toctree::", L "   a.rest"] ∧
    fsToctree (L "a.rest") = none ∧
    (genrstincluded fsToctree joinCwd 10 (L "root.rest") [L "."] false).1
      = [L "root.rest"] ∧
    L "a.rest" ∉ (genrstincluded fsToctree joinCwd 10 (L "root.rest")
      [L "."] false).1 := by decide

/-- An include target that resolves nowhere falls back to the bare name. -/
theorem resolveIncl_unresolved {fs : Line → Option (List Line)}
    {join : Line → Line → Line} {m : Line} :
    ∀ (paths : List Line),
      (∀ p ∈ paths, fs (join p m) = none ∧ fs (join p m ++ L ".stpl") = none) →
      resolveIncl fs join paths m = m := by
  intro paths
  induction paths with
  | nil => intro _; rfl
  | cons p rest ih =>
    intro h
    obtain ⟨h1, h2⟩ := h p (List.mem_cons_self _ _)
    simp only [resolveIncl, h1, h2]
    simp only [Option.isSome_none, Bool.false_eq_true, if_false]
    exact ih (fun q hq => h q (List.mem_cons_of_mem _ hq))

/-- C7, amended: the walker yields the given path itself first; an
include-referenced file that resolves nowhere is yielded by name only, not
recursed into, and the raise this produces inside the generator is
confined (the except around the recursive call catches it, and a call
whose own file resolves never raises to its consumer); a missing
toctree-listed file, however, is skipped silently — neither yielded nor
recursed into. -/
theorem C7_missing_files :
    (∀ (fs : Line → Option (List Line)) (join : Line → Line → Line)
        (fuel : Nat) (fn : Line) (paths : List Line) (w : Bool),
        (genrstincluded fs join fuel fn paths w).1.head? = some fn) ∧
    (∀ (fs : Line → Option (List Line)) (join : Line → Line → Line)
        (fuel : Nat) (m : Line) (paths : List Line) (w : Bool),
        (∀ p ∈ paths, fs (join p m) = none ∧ fs (join p m ++ L ".stpl") = none) →
        fs m = none →
        genrstincluded fs join (fuel + 1) m paths w = ([m], true)) ∧
    (∀ (fs : Line → Option (List Line)) (join : Line → Line → Line)
        (fuel : Nat) (fn : Line) (paths : List Line) (w : Bool) (lns : List Line),
        fs (resolveIncl fs join paths fn) = some lns →
        (genrstincluded fs join (fuel + 1) fn paths w).2 = false) ∧
    (∀ (sub : Line → List Line × Bool) (fs : Line → Option (List Line))
        (w : Bool) (e : Line) (rest : List Line),
        (L " ").isPrefixOf e = true → fs (wsTrim e) = none →
        linesWalk sub fs w (e :: rest) true = linesWalk sub fs w rest true) := by
  refine ⟨?_, ?_, ?_, ?_⟩
  · intro fs join fuel fn paths w
    cases fuel with
    | zero => rfl
    | succ n =>
      simp only [genrstincluded]
      split <;> rfl
  · intro fs join fuel m paths w hp hm
    simp only [genrstincluded, resolveIncl_unresolved paths hp, hm]
  · intro fs join fuel fn paths w lns h
    simp only [genrstincluded, h]
  · intro sub fs w e rest hpre hmiss
    simp only [linesWalk, hpre, Bool.and_true, hmiss]
    simp

/-- Witness for C7 at concrete inputs: a missing include is yielded by
name with a confined raise, and the head is the path itself. -/
theorem C7_missing_files_witness :
    (genrstincluded fsToctree joinCwd 10 (L "root.rest") [L "."] false).1.head?
      = some (L "root.rest") ∧
    genrstincluded fsToctree joinCwd 4 (L "missing.rst") [L "."] false
      = ([L "missing.rst"], true) ∧
    linesWalk (genrstinclAux fsToctree joinCwd [L "."] 3) fsToctree false
        [L "   a.rest"] true
      = linesWalk (genrstinclAux fsToctree joinCwd [L "."] 3) fsToctree false
        [] true := by
  refine ⟨C7_missing_files.1 fsToctree joinCwd 10 (L "root.rest") [L "."] false,
    ?_, ?_⟩
  · exact C7_missing_files.2.1 fsToctree joinCwd 3 (L "missing.rst") [L "."]
      false (by decide) (by decide)
  · exact C7_missing_files.2.2.2 _ fsToctree false (L "   a.rest") []
      (by decide) (by decide)

end Dcx

namespace Dcx

/-- The `.tags` rows of one document are one row per target, in
declaration order, independent of the link-flush state. -/
theorem docGo_tags (alltgts : List Line) (restn fin : Line) (up lenlns : Nat) :
    ∀ (tgts : List (Nat × Line × Line))
      (st : List (Nat × Line) × Option (Nat × Line)),
      (docGo alltgts restn fin up lenlns tgts st).2
        = tgts.map (fun t => tagRow t.2.1 up fin t.1) := by
  intro tgts
  induction tgts with
  | nil => intro st; rfl
  | cons t rest ih =>
    intro st
    obtain ⟨i, tgt, name⟩ := t
    simp only [docGo, List.map_cons]
    rw [ih]

/-- C8, counterexample: the emitted row carries two tab characters between
`;"` and `line:`, not the single tab of the claimed row format. -/
theorem C8_counterexample :
    (lnksandtags (L "") [⟨L "d", L "d.rest", 4, [], [(0, L "x", L "Figure 1")]⟩]
        [] [L "x"]).tags
      = tagRow (L "x") 0 (L "d.rest") 0 ∧
    tagRow (L "x") 0 (L "d.rest") 0 ≠ tagRowClaim (L "x") 0 (L "d.rest") 0 := by
  decide

/-- C8, amended: per folder the `.tags` contents are exactly one row per
target, joined with newlines, in document order then declaration order
(never sorted); each row is
`id<TAB>../…/<doc-path><TAB>/^\.\. _`\?id`\?:/;"<TAB><TAB>line:<n>` with
one `../` hop per folder component and `n` the 1-based declaration line
(see `tagRow`; the claim's single tab before `line:` is actually two). -/
theorem C8_tags_rows :
    ∀ (fldr : Line) (lnktgts : List DocEntry) (af alltgts : List Line),
      (lnksandtags fldr lnktgts af alltgts).tags
        = List.intercalate (L "\n")
            (lnktgts.flatMap (fun d =>
              d.tgts.map (fun t =>
                tagRow t.2.1
                  (if wsTrim fldr ≠ [] then (splitOnL (L "/") fldr).length else 0)
                  (d.doc.map (fun c => if c = '\\' then '/' else c)) t.1))) := by
  intro fldr lnktgts af alltgts
  simp only [lnksandtags]
  congr 1
  refine List.flatMap_congr ?_
  intro d _
  simp only [processDoc]
  rw [docGo_tags]

end Dcx

namespace Dcx




/-- The batch classified by the iterator loop is the prefix of the
pending iterator links up to the first position past the bound. -/
theorem consume_prefix (alltgts : List Line) (i : Nat) :
    ∀ rem : List (Nat × Line),
      (addLinksto.consume alltgts i rem).1
          ++ ((addLinksto.consume alltgts i rem).2.2.toList
              ++ (addLinksto.consume alltgts i rem).2.1).map
            (fun p => classify alltgts p.2)
        = rem.map (fun p => classify alltgts p.2) := by
  intro rem
  induction rem with
  | nil => rfl
  | cons q rest ih =>
    obtain ⟨j, l⟩ := q
    simp only [addLinksto.consume]
    by_cases hj : j > i
    · rw [if_pos hj]
      simp
    · rw [if_neg hj]
      simp only [List.map_cons, List.cons_append]
      rw [ih]

/-- Links pending after the loop were pending before it. -/
theorem consume_pending_sub (alltgts : List Line) (i : Nat) :
    ∀ (rem : List (Nat × Line)) p,
      p ∈ (addLinksto.consume alltgts i rem).2.2.toList
          ++ (addLinksto.consume alltgts i rem).2.1 → p ∈ rem := by
  intro rem
  induction rem with
  | nil => intro p h; simp [addLinksto.consume] at h
  | cons q rest ih =>
    obtain ⟨j, l⟩ := q
    intro p h
    simp only [addLinksto.consume] at h
    by_cases hj : j > i
    · rw [if_pos hj] at h
      simp only [Option.toList_some] at h
      rcases List.mem_append.mp h with h | h
      · simp only [List.mem_singleton] at h
        rw [h]; exact List.mem_cons_self _ _
      · exact List.mem_cons_of_mem _ h
    · rw [if_neg hj] at h
      exact List.mem_cons_of_mem _ (ih p h)

/-- One `add_linksto` call classifies a prefix of the pending links. -/
theorem addLinksto_prefix (alltgts : List Line) (i : Nat)
    (st : List (Nat × Line) × Option (Nat × Line)) :
    (addLinksto alltgts i st).1
        ++ (pendingList (addLinksto alltgts i st).2).map
          (fun p => classify alltgts p.2)
      = (pendingList st).map (fun p => classify alltgts p.2) := by
  obtain ⟨rem, oj⟩ := st
  cases oj with
  | none =>
    simp only [addLinksto, pendingList]
    have h := consume_prefix alltgts i rem
    simpa using h
  | some q =>
    obtain ⟨j, l⟩ := q
    simp only [addLinksto]
    by_cases hj : j < i
    · rw [if_pos hj]
      simp only [pendingList, Option.toList_some, List.map_append,
        List.map_cons, List.cons_append]
      have h := consume_prefix alltgts i rem
      rw [← List.map_append] at *
      simp only [List.map_nil, List.nil_append]
      congr 1
    · rw [if_neg hj]
      rfl

/-- Pending links only shrink across an `add_linksto` call. -/
theorem addLinksto_pending_sub (alltgts : List Line) (i : Nat)
    (st : List (Nat × Line) × Option (Nat × Line)) :
    ∀ p, p ∈ pendingList (addLinksto alltgts i st).2 → p ∈ pendingList st := by
  obtain ⟨rem, oj⟩ := st
  intro p h
  cases oj with
  | none =>
    simp only [addLinksto, pendingList] at h ⊢
    simp only [Option.toList_none, List.nil_append]
    exact consume_pending_sub alltgts i rem p (by simpa using h)
  | some q =>
    obtain ⟨j, l⟩ := q
    simp only [addLinksto] at h
    by_cases hj : j < i
    · rw [if_pos hj] at h
      simp only [pendingList] at h ⊢
      exact List.mem_append_right _ (consume_pending_sub alltgts i rem p
        (by simpa using h))
    · rw [if_neg hj] at h
      exact h

/-- When every pending link sits strictly below the bound, the call
classifies all of them and leaves nothing pending. -/
theorem addLinksto_final (alltgts : List Line) (i : Nat) :
    ∀ (st : List (Nat × Line) × Option (Nat × Line)),
      (∀ p ∈ pendingList st, p.1 < i) →
      addLinksto alltgts i st
        = ((pendingList st).map (fun p => classify alltgts p.2), ([], none)) := by
  have hcons : ∀ (rem : List (Nat × Line)), (∀ p ∈ rem, p.1 < i) →
      addLinksto.consume alltgts i rem
        = (rem.map (fun p => classify alltgts p.2), [], none) := by
    intro rem
    induction rem with
    | nil => intro _; rfl
    | cons q rest ih =>
      obtain ⟨j, l⟩ := q
      intro h
      have hj : j < i := h (j, l) (List.mem_cons_self _ _)
      simp only [addLinksto.consume]
      rw [if_neg (by omega), ih (fun p hp => h p (List.mem_cons_of_mem _ hp))]
      rfl
  intro st h
  obtain ⟨rem, oj⟩ := st
  cases oj with
  | none =>
    simp only [addLinksto, pendingList] at h ⊢
    rw [hcons rem (fun p hp => h p (by simpa using hp))]
    simp
  | some q =>
    obtain ⟨j, l⟩ := q
    have hj : j < i := h (j, l) (by simp [pendingList])
    simp only [addLinksto, pendingList] at h ⊢
    rw [if_pos hj, hcons rem (fun p hp => h p (by simp [hp]))]
    simp

end Dcx

namespace Dcx

/-- Over one document, the classified link batches carried by the flush
events are exactly the pending links, classified in order. -/
theorem docGo_flushes (alltgts : List Line) (restn fin : Line)
    (up lenlns : Nat) :
    ∀ (tgts : List (Nat × Line × Line))
      (st : List (Nat × Line) × Option (Nat × Line)),
      (∀ p ∈ pendingList st, p.1 < lenlns) →
      flushParts (docGo alltgts restn fin up lenlns tgts st).1
        = (pendingList st).map (fun p => classify alltgts p.2) := by
  intro tgts
  induction tgts with
  | nil =>
    intro st h
    simp only [docGo]
    rw [addLinksto_final alltgts lenlns st h]
    by_cases he : (pendingList st).map (fun p => classify alltgts p.2) = []
    · rw [he]; simp [flushParts]
    · rw [if_neg (by simpa using he)]
      simp [flushParts]
  | cons t rest ih =>
    intro st h
    obtain ⟨i, tgt, name⟩ := t
    simp only [docGo]
    have hsub := addLinksto_pending_sub alltgts i st
    have hrec := ih (addLinksto alltgts i st).2
      (fun p hp => h p (hsub p hp))
    have hpre := addLinksto_prefix alltgts i st
    by_cases he : (addLinksto alltgts i st).1 = []
    · rw [he]
      simp only [List.isEmpty_nil, if_true, List.nil_append]
      show flushParts (Emt.tgtline tgt name restn
        :: (docGo alltgts restn fin up lenlns rest (addLinksto alltgts i st).2).1)
        = _
      show flushParts ((docGo alltgts restn fin up lenlns rest
        (addLinksto alltgts i st).2).1) = _
      rw [hrec, ← hpre, he]
      simp
    · rw [if_neg (by simpa using he)]
      show flushParts (Emt.flush (addLinksto alltgts i st).1
        :: Emt.tgtline tgt name restn
        :: (docGo alltgts restn fin up lenlns rest (addLinksto alltgts i st).2).1)
        = _
      show (addLinksto alltgts i st).1
          ++ flushParts (Emt.tgtline tgt name restn
            :: (docGo alltgts restn fin up lenlns rest
              (addLinksto alltgts i st).2).1) = _
      show (addLinksto alltgts i st).1
          ++ flushParts ((docGo alltgts restn fin up lenlns rest
            (addLinksto alltgts i st).2).1) = _
      rw [hrec, hpre]

end Dcx

namespace Dcx

/-- Per event, the three renderings agree on flush lines: headers and
flush comments render identically in every format, and substitution lines
are never flush lines. -/
theorem render_flush_agree (e : Emt) :
    renderDocx e = renderSphinx e ∨
      (isFlushLine (renderSphinx e) = false ∧
        isFlushLine (renderDocx e) = false) := by
  cases e with
  | hdr fin => exact Or.inl rfl
  | flush ls => exact Or.inl rfl
  | tgtline tgt name restn => exact Or.inr ⟨rfl, rfl⟩

/-- Same for the pdf rendering. -/
theorem render_flush_agree_pdf (e : Emt) :
    renderPdf e = renderSphinx e ∨
      (isFlushLine (renderSphinx e) = false ∧
        isFlushLine (renderPdf e) = false) := by
  cases e with
  | hdr fin => exact Or.inl rfl
  | flush ls => exact Or.inl rfl
  | tgtline tgt name restn => exact Or.inr ⟨rfl, rfl⟩

/-- The flush lines of two renderings agree over any event list. -/
theorem filter_flush_eq (render2 : Emt → Line)
    (hag : ∀ e, render2 e = renderSphinx e ∨
      (isFlushLine (renderSphinx e) = false ∧ isFlushLine (render2 e) = false)) :
    ∀ (evts : List Emt),
      (evts.map renderSphinx).filter isFlushLine
        = (evts.map render2).filter isFlushLine := by
  intro evts
  induction evts with
  | nil => rfl
  | cons e rest ih =>
    simp only [List.map_cons, List.filter_cons]
    rcases hag e with h | ⟨h1, h2⟩
    · rw [h, ih]
    · rw [h1, h2, ih]
      simp

end Dcx

namespace Dcx

/-- C6: during emission every link reference of a document is classified
exactly once, in order — an id in the folder's known-target set is kept
verbatim, an absent id is still emitted with the leading `-` marker, and
none is dropped (the concatenation of the flush batches is exactly the
classified link list); the flush comment lines are moreover identical in
the sphinx, docx and pdf outputs. -/
theorem C6_dangling_marked :
    (∀ (alltgts : List Line) (up : Nat) (d : DocEntry),
        (∀ p ∈ d.lnks, p.1 < d.lenlns) →
        flushParts (processDoc alltgts up d).1
          = d.lnks.map (fun p => if p.2 ∈ alltgts then p.2 else '-' :: p.2)) ∧
    (∀ evts : List Emt,
        (evts.map renderSphinx).filter isFlushLine
            = (evts.map renderDocx).filter isFlushLine ∧
        (evts.map renderSphinx).filter isFlushLine
            = (evts.map renderPdf).filter isFlushLine) := by
  constructor
  · intro alltgts up d h
    simp only [processDoc]
    show flushParts ((docGo alltgts d.restn
      (d.doc.map (fun c => if c = '\\' then '/' else c)) up d.lenlns d.tgts
      (d.lnks, none)).1) = _
    rw [docGo_flushes alltgts d.restn _ up d.lenlns d.tgts (d.lnks, none)
      (by simpa [pendingList] using h)]
    simp [pendingList, classify]
  · intro evts
    exact ⟨filter_flush_eq renderDocx render_flush_agree evts,
      filter_flush_eq renderPdf render_flush_agree_pdf evts⟩

/-- Witness for C6: one resolved and one dangling link. -/
theorem C6_dangling_marked_witness :
    flushParts (processDoc [L "x"] 0
        ⟨L "d", L "d.rest", 2, [(0, L "x"), (1, L "miss")], []⟩).1
      = [((0 : Nat), L "x"), (1, L "miss")].map
          (fun p => if p.2 ∈ [L "x"] then p.2 else '-' :: p.2) :=
  C6_dangling_marked.1 [L "x"] 0
    ⟨L "d", L "d.rest", 2, [(0, L "x"), (1, L "miss")], []⟩ (by decide)

end Dcx

namespace Dcx



/-- Scanning the anchor of one block: the directive line is skipped, the
empty `:name:` line stops with the counter label of the kind and advances
that counter. -/
theorem scanLabel_block (d : Drct) (R : List Line) (c : Counters) :
    scanLabel (mkBlock d ++ R) (L "x") c 0
      = (kindCap d ++ ' ' :: natLine (kindN d c), kindBump d c) := by
  have hlen : (mkBlock d ++ R).length = 5 + R.length := by
    simp [mkBlock]
    omega
  have hb2 : ¬ (2 : Nat) > (mkBlock d ++ R).length - 1 := by omega
  have hb3 : ¬ (3 : Nat) > (mkBlock d ++ R).length - 1 := by omega
  have hv2 : lineVerdict ((mkBlock d ++ R).getD 1 [])
      ((mkBlock d ++ R).getD 2 []) c = Verdict.next := by
    cases d <;> rfl
  have hv3 : lineVerdict ((mkBlock d ++ R).getD 2 [])
      ((mkBlock d ++ R).getD 3 []) c
      = Verdict.stop (kindCap d ++ ' ' :: natLine (kindN d c)) (kindBump d c) := by
    cases d <;> rfl
  show scanGo [] (mkBlock d ++ R) (L "x") 6 2 (L "x") c = _
  rw [scanGo_step_next hb2 hv2, scanGo_step_stop hb3 hv3]

end Dcx

namespace Dcx

/-- Reading past one block lands in the rest of the document. -/
theorem getD_block_shift (d : Drct) (R : List Line) (i : Nat) :
    (mkBlock d ++ R).getD (5 + i) [] = R.getD i [] := by
  have h5 : (mkBlock d).length = 5 := by cases d <;> rfl
  rw [List.getD_append_right _ _ _ _ (by omega)]
  congr 1
  omega

/-- The anchor indices of a block-structured document: the block's own
anchor at index 0, then the anchors of the rest shifted past the block. -/
theorem anchorIdxs_block (d : Drct) (R : List Line) :
    anchorIdxs (mkBlock d ++ R) = 0 :: (anchorIdxs R).map (5 + ·) := by
  have h5 : (mkBlock d).length = 5 := by cases d <;> rfl
  have hlen : (mkBlock d ++ R).length = 5 + R.length := by
    simp [List.length_append, h5]
  unfold anchorIdxs
  rw [hlen, List.range_add, List.filter_append]
  have hfil5 : (List.range 5).filter
      (fun i => rextgtMatch ((mkBlock d ++ R).getD i [])) = [0] := by
    cases d <;> rfl
  rw [hfil5]
  rw [List.filter_map]
  have hfc : List.filter
      ((fun i => rextgtMatch ((mkBlock d ++ R).getD i [])) ∘ fun x => 5 + x)
      (List.range R.length)
      = List.filter (fun i => rextgtMatch (R.getD i []))
        (List.range R.length) :=
    List.filter_congr (fun i _ => by
      show rextgtMatch ((mkBlock d ++ R).getD (5 + i) [])
        = rextgtMatch (R.getD i [])
      rw [getD_block_shift])
  rw [hfc, List.singleton_append]

end Dcx

namespace Dcx

/-- The lookahead loop is invariant under shifting past one block. -/
theorem scanGo_block_shift (d : Drct) (R : List Line) (tgt : Line) :
    ∀ (fuel j : Nat) (name : Line) (c : Counters), 2 ≤ j →
      scanGo [] (mkBlock d ++ R) tgt fuel (5 + j) name c
        = scanGo [] R tgt fuel j name c := by
  have h5 : (mkBlock d).length = 5 := by cases d <;> rfl
  have hlen : (mkBlock d ++ R).length = 5 + R.length := by
    simp [List.length_append, h5]
  intro fuel
  induction fuel with
  | zero => intro j name c _; rfl
  | succ fuel ih =>
    intro j name c hj
    simp only [scanGo]
    by_cases hb : j > R.length - 1
    · rw [if_pos (by omega), if_pos hb]
    · rw [if_neg (by omega), if_neg hb]
      rw [show 5 + j - 1 = 5 + (j - 1) from by omega]
      rw [getD_block_shift, getD_block_shift]
      split
      · rfl
      · exact ih (j + 1) tgt c (by omega)

/-- Label scanning at an anchor past the block equals scanning the rest. -/
theorem scanLabel_block_shift (d : Drct) (R : List Line) (tgt : Line)
    (c : Counters) (i : Nat) :
    scanLabel (mkBlock d ++ R) tgt c (5 + i) = scanLabel R tgt c i :=
  scanGo_block_shift d R tgt 6 (i + 2) tgt c (by omega)

/-- Processing shifted indices past one block: same labels and counters,
indices shifted. -/
theorem processIdxs_block_shift (d : Drct) (R : List Line) :
    ∀ (idxs : List Nat) (c : Counters),
      processIdxs (mkBlock d ++ R) (idxs.map (5 + ·)) c
        = (((processIdxs R idxs c).1).map (fun t => (5 + t.1, t.2)),
           (processIdxs R idxs c).2) := by
  intro idxs
  induction idxs with
  | nil => intro c; rfl
  | cons i rest ih =>
    intro c
    simp only [List.map_cons, processIdxs, getD_block_shift,
      scanLabel_block_shift]
    rw [ih]

end Dcx

namespace Dcx

/-- The expected targets shift uniformly in the position argument. -/
theorem expectedTgts_shift (k : Nat) :
    ∀ (ds : List Drct) (pos nf nm nt nc : Nat),
      expectedTgts (k + pos) nf nm nt nc ds
        = (expectedTgts pos nf nm nt nc ds).map (fun t => (k + t.1, t.2)) := by
  intro ds
  induction ds with
  | nil => intro pos nf nm nt nc; rfl
  | cons d rest ih =>
    intro pos nf nm nt nc
    simp only [expectedTgts, List.map_cons]
    congr 1
    exact ih (pos + 5) _ _ _ _

/-- The targets of an interleaved block document, for any starting
counters. -/
theorem processIdxs_mkBlocks :
    ∀ (ds : List Drct) (c : Counters),
      (processIdxs (mkBlocks ds) (anchorIdxs (mkBlocks ds)) c).1
        = expectedTgts 0 c.figure c.math c.table c.code ds := by
  intro ds
  induction ds with
  | nil => intro c; rfl
  | cons d rest ih =>
    intro c
    have hBR : mkBlocks (d :: rest) = mkBlock d ++ mkBlocks rest := rfl
    rw [hBR, anchorIdxs_block]
    simp only [processIdxs]
    rw [show pstrip ((mkBlock d ++ mkBlocks rest).getD 0 []) = L "x" from by
      cases d <;> rfl]
    rw [scanLabel_block, processIdxs_block_shift, ih (kindBump d c)]
    simp only [expectedTgts]
    congr 1
    · cases d <;> rfl
    · rw [show (5 : Nat) = 5 + 0 from rfl, expectedTgts_shift 5 rest 0]
      cases d <;> rfl

/-- C3: in a document interleaving figure, math, table, list-table, code
and code-block directives each with an empty `:name:` field under its own
anchor, every target is labeled `<Kind> <n>` — list-table normalized to
Table, code-block to Code — where `n` is that kind's running counter,
post-incremented; hence the n-th unlabeled block of a kind is numbered n,
independent of the interleaving. -/
theorem C3_counter_labels :
    ∀ ds : List Drct,
      (linktargets (mkBlocks ds) 0 []).1 = expectedTgts 0 1 1 1 1 ds := by
  intro ds
  exact processIdxs_mkBlocks ds initCounters

end Dcx

-- sanity: an interleaved document numbers each kind independently
example :
    Dcx.expectedTgts 0 1 1 1 1 [Dcx.Drct.fig, Dcx.Drct.ltbl, Dcx.Drct.fig,
      Dcx.Drct.cblk]
    = [(0, Dcx.L "x", Dcx.L "Figure 1"), (5, Dcx.L "x", Dcx.L "Table 1"),
       (10, Dcx.L "x", Dcx.L "Figure 2"), (15, Dcx.L "x", Dcx.L "Code 1")] := by
  decide
example :
    (Dcx.linktargets (Dcx.mkBlocks [Dcx.Drct.fig, Dcx.Drct.ltbl, Dcx.Drct.fig,
      Dcx.Drct.cblk]) 0 []).1
    = [(0, Dcx.L "x", Dcx.L "Figure 1"), (5, Dcx.L "x", Dcx.L "Table 1"),
       (10, Dcx.L "x", Dcx.L "Figure 2"), (15, Dcx.L "x", Dcx.L "Code 1")] := by
  decide
